import Mathlib

/-!
Verification of the decoder orchestration layer in lib/decoder.js.

The source is a Node.js Readable stream that receives Vorbis packets from an
ogg stream (the Packet Source) and produces PCM data on demand.  We model it as
an explicit state machine:

* The opaque libvorbis binding (the Codec Engine) is an oracle, `Engine`, whose
  status results are indexed by the ordinal number of the call, matching the
  source convention that only the zero / non-zero (success / failure) and
  negative / zero / positive (extraction) distinctions are load-bearing.
* The mutable fields of the `Decoder` object become fields of `St`; the
  `once('pcmout')` and `once('blockin')` handlers registered by `packetin` and
  `_read` become the `pcmoutWaiter` and `blockinWaiter` fields; event emission
  converts a waiter into a pending task (`pending`), which is run before any
  further external event is dispatched (JavaScript run-to-completion).
* Observable outputs (the comments and format events, the error event raised by
  `_error`, PCM chunks, the end-of-file result and the errors handed to the
  callbacks) are accumulated chronologically in a ghost `trace` field, and
  ghost counters record how often each engine operation has been invoked.
-/

namespace NodeVorbis

/-- An ogg packet as delivered by the Packet Source: the payload itself is
irrelevant to the orchestration layer, only the packet number (used by the
source for logging) and the end-of-stream marker are observed. -/
structure Packet where
  packetno : Nat
  e_o_s : Bool
deriving Repr, DecidableEq

/-- The Codec Engine oracle (the libvorbis binding).  Each operation that the
decoder invokes is modelled by a function from the ordinal number of the call
(and the packet, where the source passes one) to the status the binding
returns.  `pcmout` returns the byte count: zero means the current block is
exhausted, negative is an error, positive is a chunk of that many bytes. -/
structure Engine where
  headerin : Nat → Packet → Int
  synthesisInit : Int
  blockInit : Int
  synthesis : Nat → Packet → Int
  blockin : Nat → Int
  pcmout : Nat → Int

/-- Observable outputs of the decoder, recorded chronologically. -/
inductive Ev where
  /-- the comments event emitted after the third header packet -/
  | comments : Ev
  /-- the format event emitted right after the comments event -/
  | format : Ev
  /-- successful completion callback for a header packet -/
  | hdrOk : Ev
  /-- the headerin-failed error handed to the packet callback -/
  | hdrErr (r : Int) : Ev
  /-- the error from vorbis_synthesis_init or vorbis_block_init handed to the
  packet callback -/
  | initErr (r : Int) : Ev
  /-- the error event emitted by Decoder._error -/
  | errorEvent (r : Int) : Ev
  /-- a PCM chunk of b bytes delivered to the consumer -/
  | chunk (b : Int) : Ev
  /-- the end-of-file result delivered to the consumer -/
  | eof : Ev
  /-- the pcmout-failed error delivered to the consumer as a read failure -/
  | readErr (r : Int) : Ev
deriving Repr, DecidableEq

/-- A handler resumption created by emitting a level-triggered event: the
deferred `packetin` retry registered with once('pcmout'), or the deferred
`_read` registered with once('blockin'). -/
inductive DecTask where
  | packetTask (pkt : Packet) : DecTask
  | readTask : DecTask
deriving Repr, DecidableEq

/-- The decoder state.  The first group of fields are the mutable fields of the
`Decoder` object in the source; the second group models the event-emitter
bookkeeping; the remaining fields are ghost instrumentation (engine call
counters, the chronological output trace and environment bookkeeping). -/
structure St where
  /-- headerin() needs to be called 3 times -/
  _headerCount : Nat
  /-- set once a vorbis_block has been decoded and pcm data should be read -/
  _blockin : Bool
  /-- set once the ogg_packet with e_o_s marked on it is decoded -/
  _gotEos : Bool
  /-- the vorbis_dsp_state and vorbis_block structs have been allocated -/
  vdAlloc : Bool
  /-- the packet listener is still attached to the ogg stream -/
  attached : Bool
  /-- a packetin deferred with once('pcmout', ...) waiting for a drain -/
  pcmoutWaiter : Option Packet
  /-- a _read deferred with once('blockin', ...) waiting for a block -/
  blockinWaiter : Bool
  /-- handlers resumed by an emit, to run before the next external event -/
  pending : List DecTask
  /-- ghost: number of vorbis_synthesis_headerin calls -/
  headerCalls : Nat
  /-- ghost: number of successful header packets -/
  hdrOkCount : Nat
  /-- ghost: number of vorbis_synthesis calls -/
  synthCalls : Nat
  /-- ghost: number of vorbis_synthesis_blockin calls -/
  blockinCalls : Nat
  /-- ghost: number of vorbis_synthesis_pcmout calls -/
  pcmoutCalls : Nat
  /-- ghost: number of vorbis_synthesis_pcmout calls that returned zero -/
  pcmZeroCount : Nat
  /-- ghost: Decoder._error has run -/
  erred : Bool
  /-- ghost: the Packet Source has emitted a packet with e_o_s set -/
  eosArrived : Bool
  /-- ghost: the end-of-file result has been delivered to the consumer -/
  eofDelivered : Bool
  /-- ghost: chronological record of the observable outputs -/
  trace : List Ev
deriving Repr, DecidableEq

/-- Record an observable output. -/
def emitEv (s : St) (ev : Ev) : St :=
  { s with trace := s.trace ++ [ev] }

/-- this.emit('blockin'): fires the once('blockin') handler, if any, which is
the deferred `_read`. -/
def emitBlockin (s : St) : St :=
  if s.blockinWaiter then
    { s with blockinWaiter := false, pending := s.pending ++ [DecTask.readTask] }
  else s

/-- this.emit('pcmout'): fires the once('pcmout') handler, if any, which is the
deferred `packetin` retrying the same packet. -/
def emitPcmout (s : St) : St :=
  match s.pcmoutWaiter with
  | some pkt =>
      { s with pcmoutWaiter := none, pending := s.pending ++ [DecTask.packetTask pkt] }
  | none => s

/-- Decoder._error: removes the packet listener from the ogg stream and emits
an error event. -/
def _error (s : St) (r : Int) : St :=
  { s with attached := false, erred := true, trace := s.trace ++ [Ev.errorEvent r] }

/-- Decoder._synthesis_init: allocates the vorbis_dsp_state and vorbis_block
structs, then calls vorbis_synthesis_init and vorbis_block_init; returns the
first non-zero status as an error, if any. -/
def _synthesis_init (e : Engine) (s : St) : St × Option Int :=
  let s1 := { s with vdAlloc := true }
  let r := e.synthesisInit
  if r ≠ 0 then (s1, some r)
  else
    let r2 := e.blockInit
    if r2 ≠ 0 then (s1, some r2) else (s1, none)

/-- Decoder.prototype.packetin: while _headerCount is positive the packet goes
to vorbis_synthesis_headerin (on success the counter is decremented, and on
the transition to zero the comments and format events are emitted and
_synthesis_init runs); otherwise, if _blockin is set the call defers itself
with once('pcmout', ...); otherwise the packet goes through vorbis_synthesis
and vorbis_synthesis_blockin, _gotEos is set from the e_o_s flag, _blockin is
set and the blockin event is emitted. -/
def packetin (e : Engine) (s : St) (pkt : Packet) : St :=
  if 0 < s._headerCount then
    let r := e.headerin s.headerCalls pkt
    let s1 := { s with headerCalls := s.headerCalls + 1 }
    if r ≠ 0 then
      emitEv s1 (Ev.hdrErr r)
    else
      let s2 := { s1 with _headerCount := s1._headerCount - 1,
                          hdrOkCount := s1.hdrOkCount + 1 }
      if s2._headerCount = 0 then
        let s3 := emitEv (emitEv s2 Ev.comments) Ev.format
        match _synthesis_init e s3 with
        | (s4, some rerr) => emitEv s4 (Ev.initErr rerr)
        | (s4, none) => emitEv s4 Ev.hdrOk
      else
        emitEv s2 Ev.hdrOk
  else if s._blockin then
    { s with pcmoutWaiter := some pkt }
  else
    let r := e.synthesis s.synthCalls pkt
    let s1 := { s with synthCalls := s.synthCalls + 1 }
    if r ≠ 0 then
      _error s1 r
    else
      let s2 := if pkt.e_o_s then { s1 with _gotEos := true } else s1
      let r2 := e.blockin s2.blockinCalls
      let s3 := { s2 with blockinCalls := s2.blockinCalls + 1 }
      if r2 ≠ 0 then
        _error s3 r2
      else
        emitBlockin { s3 with _blockin := true }

/-- Decoder.prototype._read: if no block is in, defers itself with
once('blockin', ...); otherwise calls vorbis_synthesis_pcmout.  Zero bytes:
clears _blockin, delivers the end-of-file result if _gotEos is set (otherwise
defers itself again), and emits the pcmout event.  Negative: delivers a read
error.  Positive: delivers the chunk. -/
def _read (e : Engine) (s : St) : St :=
  if s._blockin = false then
    { s with blockinWaiter := true }
  else
    let b := e.pcmout s.pcmoutCalls
    let s1 := { s with pcmoutCalls := s.pcmoutCalls + 1 }
    if b = 0 then
      let s2 := { s1 with _blockin := false, pcmZeroCount := s1.pcmZeroCount + 1 }
      let s3 := if s2._gotEos then emitEv { s2 with eofDelivered := true } Ev.eof
                else { s2 with blockinWaiter := true }
      emitPcmout s3
    else if b < 0 then
      emitEv s1 (Ev.readErr b)
    else
      emitEv s1 (Ev.chunk b)

/-- Dispatch of a resumed handler. -/
def runTask (e : Engine) (s : St) : DecTask → St
  | DecTask.packetTask pkt => packetin e s pkt
  | DecTask.readTask => _read e s

/-- Arrival of a packet from the ogg stream: the ghost eosArrived flag records
the end-of-stream marker, and the packet listener is invoked only while it is
attached. -/
def arrive (e : Engine) (s : St) (pkt : Packet) : St :=
  let s1 := { s with eosArrived := s.eosArrived || pkt.e_o_s }
  if s.attached then packetin e s1 pkt else s1

/-- The initial decoder state, as set up by the `Decoder` constructor. -/
def initSt : St :=
  { _headerCount := 3, _blockin := false, _gotEos := false, vdAlloc := false,
    attached := true, pcmoutWaiter := none, blockinWaiter := false,
    pending := [], headerCalls := 0, hdrOkCount := 0, synthCalls := 0,
    blockinCalls := 0, pcmoutCalls := 0, pcmZeroCount := 0, erred := false,
    eosArrived := false, eofDelivered := false, trace := [] }

/-- One step of an execution.  External events (a packet from the source, a
read demand from the consumer) are dispatched only when no resumed handler is
pending, packets are serialized by the source waiting for the completion
callback of the previous packet (so none can arrive while one is parked in the
pcmout waiter), the source stops after an end-of-stream packet, and the stream
machinery issues at most one read at a time (none while one is suspended). -/
inductive Step (e : Engine) : St → St → Prop where
  | packetArrive (s : St) (pkt : Packet) :
      s.pending = [] → s.pcmoutWaiter = none → s.eosArrived = false →
      Step e s (arrive e s pkt)
  | readDemand (s : St) :
      s.pending = [] → s.blockinWaiter = false →
      Step e s (_read e s)
  | internal (s : St) (t : DecTask) (ts : List DecTask) :
      s.pending = t :: ts →
      Step e s (runTask e { s with pending := ts } t)

/-- The states reachable by some execution of the decoder. -/
inductive Reach (e : Engine) : St → Prop where
  | start : Reach e initSt
  | step {s s' : St} : Reach e s → Step e s s' → Reach e s'

/-- Number of error events (those raised by Decoder._error) in a trace. -/
def countErr (tr : List Ev) : Nat :=
  tr.countP fun ev => match ev with
    | Ev.errorEvent _ => true
    | _ => false

theorem countErr_append (l l' : List Ev) :
    countErr (l ++ l') = countErr l + countErr l' :=
  List.countP_append _ _ _

theorem packetin_hdrFail (e : Engine) (s : St) (pkt : Packet)
    (h0 : 0 < s._headerCount) (hr : e.headerin s.headerCalls pkt ≠ 0) :
    packetin e s pkt =
      { s with headerCalls := s.headerCalls + 1,
               trace := s.trace ++ [Ev.hdrErr (e.headerin s.headerCalls pkt)] } := by
  simp [packetin, emitEv, h0, hr]

theorem packetin_hdrOk_more (e : Engine) (s : St) (pkt : Packet)
    (h0 : 2 ≤ s._headerCount) (hr : e.headerin s.headerCalls pkt = 0) :
    packetin e s pkt =
      { s with _headerCount := s._headerCount - 1,
               headerCalls := s.headerCalls + 1,
               hdrOkCount := s.hdrOkCount + 1,
               trace := s.trace ++ [Ev.hdrOk] } := by
  have h1 : 0 < s._headerCount := by omega
  have h2 : ¬ s._headerCount - 1 = 0 := by omega
  simp [packetin, emitEv, h1, h2, hr]

theorem packetin_hdrLast_initFail1 (e : Engine) (s : St) (pkt : Packet)
    (h0 : s._headerCount = 1) (hr : e.headerin s.headerCalls pkt = 0)
    (hi : e.synthesisInit ≠ 0) :
    packetin e s pkt =
      { s with _headerCount := 0,
               headerCalls := s.headerCalls + 1,
               hdrOkCount := s.hdrOkCount + 1,
               vdAlloc := true,
               trace := s.trace ++
                 [Ev.comments, Ev.format, Ev.initErr e.synthesisInit] } := by
  have h1 : 0 < s._headerCount := by omega
  simp [packetin, _synthesis_init, emitEv, h0, h1, hr, hi]

theorem packetin_hdrLast_initFail2 (e : Engine) (s : St) (pkt : Packet)
    (h0 : s._headerCount = 1) (hr : e.headerin s.headerCalls pkt = 0)
    (hi : e.synthesisInit = 0) (hb : e.blockInit ≠ 0) :
    packetin e s pkt =
      { s with _headerCount := 0,
               headerCalls := s.headerCalls + 1,
               hdrOkCount := s.hdrOkCount + 1,
               vdAlloc := true,
               trace := s.trace ++
                 [Ev.comments, Ev.format, Ev.initErr e.blockInit] } := by
  have h1 : 0 < s._headerCount := by omega
  simp [packetin, _synthesis_init, emitEv, h0, h1, hr, hi, hb]

theorem packetin_hdrLast_initOk (e : Engine) (s : St) (pkt : Packet)
    (h0 : s._headerCount = 1) (hr : e.headerin s.headerCalls pkt = 0)
    (hi : e.synthesisInit = 0) (hb : e.blockInit = 0) :
    packetin e s pkt =
      { s with _headerCount := 0,
               headerCalls := s.headerCalls + 1,
               hdrOkCount := s.hdrOkCount + 1,
               vdAlloc := true,
               trace := s.trace ++ [Ev.comments, Ev.format, Ev.hdrOk] } := by
  have h1 : 0 < s._headerCount := by omega
  simp [packetin, _synthesis_init, emitEv, h0, h1, hr, hi, hb]

theorem packetin_defer (e : Engine) (s : St) (pkt : Packet)
    (h0 : s._headerCount = 0) (hb : s._blockin = true) :
    packetin e s pkt = { s with pcmoutWaiter := some pkt } := by
  simp [packetin, h0, hb]

theorem packetin_synthFail (e : Engine) (s : St) (pkt : Packet)
    (h0 : s._headerCount = 0) (hb : s._blockin = false)
    (hr : e.synthesis s.synthCalls pkt ≠ 0) :
    packetin e s pkt =
      { s with synthCalls := s.synthCalls + 1,
               attached := false, erred := true,
               trace := s.trace ++
                 [Ev.errorEvent (e.synthesis s.synthCalls pkt)] } := by
  simp [packetin, _error, h0, hb, hr]

theorem packetin_blockinFail (e : Engine) (s : St) (pkt : Packet)
    (h0 : s._headerCount = 0) (hb : s._blockin = false)
    (hr : e.synthesis s.synthCalls pkt = 0)
    (hr2 : e.blockin s.blockinCalls ≠ 0) :
    packetin e s pkt =
      { s with _gotEos := s._gotEos || pkt.e_o_s,
               synthCalls := s.synthCalls + 1,
               blockinCalls := s.blockinCalls + 1,
               attached := false, erred := true,
               trace := s.trace ++
                 [Ev.errorEvent (e.blockin s.blockinCalls)] } := by
  cases hpe : pkt.e_o_s <;> simp [packetin, _error, h0, hb, hr, hpe, hr2]

theorem packetin_audioOk (e : Engine) (s : St) (pkt : Packet)
    (h0 : s._headerCount = 0) (hb : s._blockin = false)
    (hr : e.synthesis s.synthCalls pkt = 0)
    (hr2 : e.blockin s.blockinCalls = 0) :
    packetin e s pkt =
      emitBlockin
        { s with _blockin := true,
                 _gotEos := s._gotEos || pkt.e_o_s,
                 synthCalls := s.synthCalls + 1,
                 blockinCalls := s.blockinCalls + 1 } := by
  cases hpe : pkt.e_o_s <;> simp [packetin, h0, hb, hr, hpe, hr2]

theorem read_noBlock (e : Engine) (s : St) (hb : s._blockin = false) :
    _read e s = { s with blockinWaiter := true } := by
  simp [_read, hb]

theorem read_zero_eos (e : Engine) (s : St) (hb : s._blockin = true)
    (hz : e.pcmout s.pcmoutCalls = 0) (he : s._gotEos = true) :
    _read e s =
      emitPcmout
        { s with _blockin := false,
                 pcmoutCalls := s.pcmoutCalls + 1,
                 pcmZeroCount := s.pcmZeroCount + 1,
                 eofDelivered := true,
                 trace := s.trace ++ [Ev.eof] } := by
  simp [_read, emitEv, hb, hz, he]

theorem read_zero_noEos (e : Engine) (s : St) (hb : s._blockin = true)
    (hz : e.pcmout s.pcmoutCalls = 0) (he : s._gotEos = false) :
    _read e s =
      emitPcmout
        { s with _blockin := false,
                 pcmoutCalls := s.pcmoutCalls + 1,
                 pcmZeroCount := s.pcmZeroCount + 1,
                 blockinWaiter := true } := by
  simp [_read, hb, hz, he]

theorem read_neg (e : Engine) (s : St) (hb : s._blockin = true)
    (hn : e.pcmout s.pcmoutCalls < 0) :
    _read e s =
      { s with pcmoutCalls := s.pcmoutCalls + 1,
               trace := s.trace ++ [Ev.readErr (e.pcmout s.pcmoutCalls)] } := by
  have hz : ¬ e.pcmout s.pcmoutCalls = 0 := by omega
  simp [_read, emitEv, hb, hz, hn]

theorem read_pos (e : Engine) (s : St) (hb : s._blockin = true)
    (hp : 0 < e.pcmout s.pcmoutCalls) :
    _read e s =
      { s with pcmoutCalls := s.pcmoutCalls + 1,
               trace := s.trace ++ [Ev.chunk (e.pcmout s.pcmoutCalls)] } := by
  have hz : ¬ e.pcmout s.pcmoutCalls = 0 := by omega
  have hn : ¬ e.pcmout s.pcmoutCalls < 0 := by omega
  simp [_read, emitEv, hb, hz, hn]

/-- The inductive invariant of decoder executions.  It combines structural
facts about the state-machine bookkeeping with the counting and trace
properties that the claims are about. -/
structure Inv (s : St) : Prop where
  waiter_blockin : s.pcmoutWaiter ≠ none → s._blockin = true
  eos_arrived : s._gotEos = true → s.eosArrived = true
  eos_hdr : s._gotEos = true → s._headerCount = 0
  blockin_hdr : s._blockin = true → s._headerCount = 0
  hdr_total : s._headerCount + s.hdrOkCount = 3
  synth_le : s.synthCalls ≤ s.pcmZeroCount + 1
  synth_le' : s.erred = false → s._blockin = false → s.synthCalls ≤ s.pcmZeroCount
  blockin_le_synth : s.blockinCalls ≤ s.synthCalls
  erred_down : s.erred = true →
    s.attached = false ∧ s._blockin = false ∧ s.pcmoutWaiter = none ∧
    s.pending = [] ∧ s._headerCount = 0
  err_count : countErr s.trace = if s.erred then 1 else 0
  hdr_phase : 0 < s._headerCount →
    s.pending = [] ∧ s.synthCalls = 0 ∧ Ev.comments ∉ s.trace ∧
    Ev.format ∉ s.trace ∧ (∀ b, Ev.chunk b ∉ s.trace)
  post_hdr : s._headerCount = 0 →
    ∃ p q, s.trace = p ++ Ev.comments :: Ev.format :: q ∧
      Ev.comments ∉ p ∧ Ev.format ∉ p ∧ (∀ b, Ev.chunk b ∉ p) ∧
      Ev.comments ∉ q ∧ Ev.format ∉ q
  eof_down : s.eofDelivered = true →
    s._gotEos = true ∧ s._blockin = false ∧ s.pcmoutWaiter = none ∧
    s.pending = []
  eof_last : s.eofDelivered = true →
    ∃ p, s.trace = p ++ [Ev.eof] ∧ Ev.eof ∉ p
  eof_not : s.eofDelivered = false → Ev.eof ∉ s.trace
  gotEos_waiter : s._gotEos = true → s.pcmoutWaiter = none
  pending_short : s.pending = [] ∨ ∃ t, s.pending = [t]
  pending_packet : ∀ q, DecTask.packetTask q ∈ s.pending →
    s._blockin = false ∧ s._headerCount = 0 ∧ s.erred = false
  pending_eos : ∀ q, DecTask.packetTask q ∈ s.pending →
    q.e_o_s = true → s.eosArrived = true
  waiter_eos : ∀ q, s.pcmoutWaiter = some q → q.e_o_s = true →
    s.eosArrived = true

theorem inv_initSt : Inv initSt := by
  constructor <;> simp [initSt, countErr]

theorem countErr_single_hdrErr (r : Int) : countErr [Ev.hdrErr r] = 0 := rfl

theorem countErr_single_hdrOk : countErr [Ev.hdrOk] = 0 := rfl

theorem countErr_single_errorEvent (r : Int) : countErr [Ev.errorEvent r] = 1 := rfl

/-- Preservation of the invariant by a failing header packet. -/
theorem inv_hdrFail (s : St) (r : Int) (hInv : Inv s)
    (hp : s.pending = []) (herr : s.erred = false) (heof : s.eofDelivered = false)
    (h0 : 0 < s._headerCount) :
    Inv { s with headerCalls := s.headerCalls + 1,
                 trace := s.trace ++ [Ev.hdrErr r] } := by
  obtain ⟨hpend0, hsynth0, hcom, hfmt, hchunk⟩ := hInv.hdr_phase h0
  constructor
  case waiter_blockin => exact hInv.waiter_blockin
  case eos_arrived => exact hInv.eos_arrived
  case eos_hdr => exact hInv.eos_hdr
  case blockin_hdr => exact hInv.blockin_hdr
  case hdr_total => exact hInv.hdr_total
  case synth_le => exact hInv.synth_le
  case synth_le' => exact hInv.synth_le'
  case blockin_le_synth => exact hInv.blockin_le_synth
  case erred_down =>
    intro h
    rw [show s.erred = true from h] at herr
    cases herr
  case err_count =>
    show countErr (s.trace ++ [Ev.hdrErr r]) = _
    rw [countErr_append, countErr_single_hdrErr, Nat.add_zero]
    exact hInv.err_count
  case hdr_phase =>
    intro _
    refine ⟨hp, hsynth0, ?_, ?_, ?_⟩
    · exact List.not_mem_append hcom (by simp)
    · exact List.not_mem_append hfmt (by simp)
    · intro b; exact List.not_mem_append (hchunk b) (by simp)
  case post_hdr =>
    intro h
    exact absurd (show s._headerCount = 0 from h) (by omega)
  case eof_down =>
    intro h
    rw [show s.eofDelivered = true from h] at heof
    cases heof
  case eof_last =>
    intro h
    rw [show s.eofDelivered = true from h] at heof
    cases heof
  case eof_not =>
    intro _
    exact List.not_mem_append (hInv.eof_not heof) (by simp)
  case gotEos_waiter => exact hInv.gotEos_waiter
  case pending_short => left; exact hp
  case pending_packet => intro q hq; rw [hp] at hq; cases hq
  case pending_eos => intro q hq; rw [hp] at hq; cases hq
  case waiter_eos => exact hInv.waiter_eos

/-- Preservation of the invariant by a successful non-final header packet. -/
theorem inv_hdrOkMore (s : St) (hInv : Inv s)
    (hp : s.pending = []) (herr : s.erred = false) (heof : s.eofDelivered = false)
    (h0 : 2 ≤ s._headerCount) :
    Inv { s with _headerCount := s._headerCount - 1,
                 headerCalls := s.headerCalls + 1,
                 hdrOkCount := s.hdrOkCount + 1,
                 trace := s.trace ++ [Ev.hdrOk] } := by
  obtain ⟨hpend0, hsynth0, hcom, hfmt, hchunk⟩ := hInv.hdr_phase (by omega)
  have hbk : s._blockin = false := by
    cases hbv : s._blockin with
    | false => rfl
    | true => have := hInv.blockin_hdr hbv; omega
  have hge : s._gotEos = false := by
    cases hgv : s._gotEos with
    | false => rfl
    | true => have := hInv.eos_hdr hgv; omega
  constructor
  case waiter_blockin =>
    intro h
    exact hInv.waiter_blockin h
  case eos_arrived => exact hInv.eos_arrived
  case eos_hdr =>
    intro h
    rw [show s._gotEos = true from h] at hge
    cases hge
  case blockin_hdr =>
    intro h
    rw [show s._blockin = true from h] at hbk
    cases hbk
  case hdr_total =>
    show s._headerCount - 1 + (s.hdrOkCount + 1) = 3
    have := hInv.hdr_total
    omega
  case synth_le => exact hInv.synth_le
  case synth_le' => exact hInv.synth_le'
  case blockin_le_synth => exact hInv.blockin_le_synth
  case erred_down =>
    intro h
    rw [show s.erred = true from h] at herr
    cases herr
  case err_count =>
    show countErr (s.trace ++ [Ev.hdrOk]) = _
    rw [countErr_append, countErr_single_hdrOk, Nat.add_zero]
    exact hInv.err_count
  case hdr_phase =>
    intro _
    refine ⟨hp, hsynth0, ?_, ?_, ?_⟩
    · exact List.not_mem_append hcom (by simp)
    · exact List.not_mem_append hfmt (by simp)
    · intro b; exact List.not_mem_append (hchunk b) (by simp)
  case post_hdr =>
    intro h
    exact absurd (show s._headerCount - 1 = 0 from h) (by omega)
  case eof_down =>
    intro h
    rw [show s.eofDelivered = true from h] at heof
    cases heof
  case eof_last =>
    intro h
    rw [show s.eofDelivered = true from h] at heof
    cases heof
  case eof_not =>
    intro _
    exact List.not_mem_append (hInv.eof_not heof) (by simp)
  case gotEos_waiter => exact hInv.gotEos_waiter
  case pending_short => left; exact hp
  case pending_packet => intro q hq; rw [hp] at hq; cases hq
  case pending_eos => intro q hq; rw [hp] at hq; cases hq
  case waiter_eos => exact hInv.waiter_eos

/-- Preservation of the invariant by the final header packet: the comments and
format events are appended, followed by one tail event (the result of
_synthesis_init handed to the callback). -/
theorem inv_hdrLast (s : St) (hInv : Inv s) (x : Ev)
    (hp : s.pending = []) (herr : s.erred = false) (heof : s.eofDelivered = false)
    (h0 : s._headerCount = 1)
    (hx1 : x ≠ Ev.comments) (hx2 : x ≠ Ev.format)
    (hx4 : x ≠ Ev.eof) (hx5 : countErr [x] = 0) :
    Inv { s with _headerCount := 0,
                 headerCalls := s.headerCalls + 1,
                 hdrOkCount := s.hdrOkCount + 1,
                 vdAlloc := true,
                 trace := s.trace ++ [Ev.comments, Ev.format, x] } := by
  obtain ⟨hpend0, hsynth0, hcom, hfmt, hchunk⟩ := hInv.hdr_phase (by omega)
  have hbk : s._blockin = false := by
    cases hbv : s._blockin with
    | false => rfl
    | true => have := hInv.blockin_hdr hbv; omega
  have hge : s._gotEos = false := by
    cases hgv : s._gotEos with
    | false => rfl
    | true => have := hInv.eos_hdr hgv; omega
  constructor
  case waiter_blockin => exact hInv.waiter_blockin
  case eos_arrived => exact hInv.eos_arrived
  case eos_hdr => intro _; rfl
  case blockin_hdr => intro _; rfl
  case hdr_total =>
    show 0 + (s.hdrOkCount + 1) = 3
    have := hInv.hdr_total
    omega
  case synth_le => exact hInv.synth_le
  case synth_le' => exact hInv.synth_le'
  case blockin_le_synth => exact hInv.blockin_le_synth
  case erred_down =>
    intro h
    rw [show s.erred = true from h] at herr
    cases herr
  case err_count =>
    show countErr (s.trace ++ [Ev.comments, Ev.format, x]) = _
    rw [show ([Ev.comments, Ev.format, x] : List Ev) =
          [Ev.comments, Ev.format] ++ [x] from rfl]
    rw [← List.append_assoc, countErr_append, countErr_append, hx5]
    have h2 : countErr [Ev.comments, Ev.format] = 0 := rfl
    rw [h2, Nat.add_zero, Nat.add_zero]
    exact hInv.err_count
  case hdr_phase =>
    intro h
    exact absurd (show 0 < (0 : Nat) from h) (by omega)
  case post_hdr =>
    intro _
    refine ⟨s.trace, [x], rfl, hcom, hfmt, hchunk, ?_, ?_⟩
    · simp
      intro h
      exact hx1 h.symm
    · simp
      intro h
      exact hx2 h.symm
  case eof_down =>
    intro h
    rw [show s.eofDelivered = true from h] at heof
    cases heof
  case eof_last =>
    intro h
    rw [show s.eofDelivered = true from h] at heof
    cases heof
  case eof_not =>
    intro _
    refine List.not_mem_append (hInv.eof_not heof) ?_
    simp
    intro h
    exact hx4 h.symm
  case gotEos_waiter => exact hInv.gotEos_waiter
  case pending_short => left; exact hp
  case pending_packet => intro q hq; rw [hp] at hq; cases hq
  case pending_eos => intro q hq; rw [hp] at hq; cases hq
  case waiter_eos => exact hInv.waiter_eos

/-- Preservation of the invariant when an audio packet is deferred because a
block is still in (the once('pcmout') registration). -/
theorem inv_defer (s : St) (pkt : Packet) (hInv : Inv s)
    (hp : s.pending = []) (herr : s.erred = false) (heof : s.eofDelivered = false)
    (h0 : s._headerCount = 0) (hb : s._blockin = true)
    (hge : s._gotEos = false)
    (heos : pkt.e_o_s = true → s.eosArrived = true) :
    Inv { s with pcmoutWaiter := some pkt } := by
  constructor
  case waiter_blockin => intro _; exact hb
  case eos_arrived => exact hInv.eos_arrived
  case eos_hdr => intro _; exact h0
  case blockin_hdr => intro _; exact h0
  case hdr_total => exact hInv.hdr_total
  case synth_le => exact hInv.synth_le
  case synth_le' =>
    intro _ h
    rw [show s._blockin = false from h] at hb
    cases hb
  case blockin_le_synth => exact hInv.blockin_le_synth
  case erred_down =>
    intro h
    rw [show s.erred = true from h] at herr
    cases herr
  case err_count => exact hInv.err_count
  case hdr_phase =>
    intro h
    have h' : 0 < s._headerCount := h
    omega
  case post_hdr => intro _; exact hInv.post_hdr h0
  case eof_down =>
    intro h
    rw [show s.eofDelivered = true from h] at heof
    cases heof
  case eof_last =>
    intro h
    rw [show s.eofDelivered = true from h] at heof
    cases heof
  case eof_not => intro _; exact hInv.eof_not heof
  case gotEos_waiter =>
    intro h
    rw [show s._gotEos = true from h] at hge
    cases hge
  case pending_short => left; exact hp
  case pending_packet => intro q hq; rw [hp] at hq; cases hq
  case pending_eos => intro q hq; rw [hp] at hq; cases hq
  case waiter_eos =>
    intro q hq hqe
    have h1 : pkt = q := by
      injection (show some pkt = some q from hq)
    rw [← h1] at hqe
    exact heos hqe

/-- Preservation of the invariant when vorbis_synthesis fails on an audio
packet, which runs Decoder._error. -/
theorem inv_synthFail (s : St) (r : Int) (hInv : Inv s)
    (hp : s.pending = []) (herr : s.erred = false) (heof : s.eofDelivered = false)
    (h0 : s._headerCount = 0) (hb : s._blockin = false) :
    Inv { s with synthCalls := s.synthCalls + 1,
                 attached := false, erred := true,
                 trace := s.trace ++ [Ev.errorEvent r] } := by
  have hw : s.pcmoutWaiter = none := by
    cases hwv : s.pcmoutWaiter with
    | none => rfl
    | some q =>
      have hb' := hInv.waiter_blockin (by rw [hwv]; simp)
      rw [hb'] at hb
      cases hb
  have hc0 : countErr s.trace = 0 := by
    have h := hInv.err_count
    rw [herr] at h
    simpa using h
  constructor
  case waiter_blockin => intro hcontra; exact absurd hw hcontra
  case eos_arrived => exact hInv.eos_arrived
  case eos_hdr => intro _; exact h0
  case blockin_hdr => intro _; exact h0
  case hdr_total => exact hInv.hdr_total
  case synth_le =>
    show s.synthCalls + 1 ≤ s.pcmZeroCount + 1
    have := hInv.synth_le' herr hb
    omega
  case synth_le' =>
    intro h
    exact absurd (show (true : Bool) = false from h) (by simp)
  case blockin_le_synth =>
    show s.blockinCalls ≤ s.synthCalls + 1
    have := hInv.blockin_le_synth
    omega
  case erred_down => intro _; exact ⟨rfl, hb, hw, hp, h0⟩
  case err_count =>
    show countErr (s.trace ++ [Ev.errorEvent r]) = 1
    rw [countErr_append, countErr_single_errorEvent, hc0]
  case hdr_phase =>
    intro h
    have h' : 0 < s._headerCount := h
    omega
  case post_hdr =>
    intro _
    obtain ⟨p, q, htr, hc1, hf1, hch, hc2, hf2⟩ := hInv.post_hdr h0
    refine ⟨p, q ++ [Ev.errorEvent r], ?_, hc1, hf1, hch, ?_, ?_⟩
    · show s.trace ++ [Ev.errorEvent r] = _
      rw [htr]
      simp
    · exact List.not_mem_append hc2 (by simp)
    · exact List.not_mem_append hf2 (by simp)
  case eof_down =>
    intro h
    rw [show s.eofDelivered = true from h] at heof
    cases heof
  case eof_last =>
    intro h
    rw [show s.eofDelivered = true from h] at heof
    cases heof
  case eof_not =>
    intro _
    exact List.not_mem_append (hInv.eof_not heof) (by simp)
  case gotEos_waiter => intro _; exact hw
  case pending_short => left; exact hp
  case pending_packet => intro q hq; rw [hp] at hq; cases hq
  case pending_eos => intro q hq; rw [hp] at hq; cases hq
  case waiter_eos =>
    intro q hq hqe
    rw [show s.pcmoutWaiter = some q from hq] at hw
    cases hw

/-- Preservation of the invariant when vorbis_synthesis_blockin fails on an
audio packet (after _gotEos may have been set), which runs Decoder._error. -/
theorem inv_blockinFail (s : St) (pkt : Packet) (r : Int) (hInv : Inv s)
    (hp : s.pending = []) (herr : s.erred = false) (heof : s.eofDelivered = false)
    (h0 : s._headerCount = 0) (hb : s._blockin = false)
    (heos : pkt.e_o_s = true → s.eosArrived = true) :
    Inv { s with _gotEos := s._gotEos || pkt.e_o_s,
                 synthCalls := s.synthCalls + 1,
                 blockinCalls := s.blockinCalls + 1,
                 attached := false, erred := true,
                 trace := s.trace ++ [Ev.errorEvent r] } := by
  have hw : s.pcmoutWaiter = none := by
    cases hwv : s.pcmoutWaiter with
    | none => rfl
    | some q =>
      have hb' := hInv.waiter_blockin (by rw [hwv]; simp)
      rw [hb'] at hb
      cases hb
  have hc0 : countErr s.trace = 0 := by
    have h := hInv.err_count
    rw [herr] at h
    simpa using h
  have hEor : (s._gotEos || pkt.e_o_s) = true → s.eosArrived = true := by
    intro h
    cases hg : s._gotEos with
    | true => exact hInv.eos_arrived hg
    | false =>
        rw [hg] at h
        simp at h
        exact heos h
  constructor
  case waiter_blockin => intro hcontra; exact absurd hw hcontra
  case eos_arrived => exact hEor
  case eos_hdr => intro _; exact h0
  case blockin_hdr => intro _; exact h0
  case hdr_total => exact hInv.hdr_total
  case synth_le =>
    show s.synthCalls + 1 ≤ s.pcmZeroCount + 1
    have := hInv.synth_le' herr hb
    omega
  case synth_le' =>
    intro h
    exact absurd (show (true : Bool) = false from h) (by simp)
  case blockin_le_synth =>
    show s.blockinCalls + 1 ≤ s.synthCalls + 1
    have := hInv.blockin_le_synth
    omega
  case erred_down => intro _; exact ⟨rfl, hb, hw, hp, h0⟩
  case err_count =>
    show countErr (s.trace ++ [Ev.errorEvent r]) = 1
    rw [countErr_append, countErr_single_errorEvent, hc0]
  case hdr_phase =>
    intro h
    have h' : 0 < s._headerCount := h
    omega
  case post_hdr =>
    intro _
    obtain ⟨p, q, htr, hc1, hf1, hch, hc2, hf2⟩ := hInv.post_hdr h0
    refine ⟨p, q ++ [Ev.errorEvent r], ?_, hc1, hf1, hch, ?_, ?_⟩
    · show s.trace ++ [Ev.errorEvent r] = _
      rw [htr]
      simp
    · exact List.not_mem_append hc2 (by simp)
    · exact List.not_mem_append hf2 (by simp)
  case eof_down =>
    intro h
    rw [show s.eofDelivered = true from h] at heof
    cases heof
  case eof_last =>
    intro h
    rw [show s.eofDelivered = true from h] at heof
    cases heof
  case eof_not =>
    intro _
    exact List.not_mem_append (hInv.eof_not heof) (by simp)
  case gotEos_waiter => intro _; exact hw
  case pending_short => left; exact hp
  case pending_packet => intro q hq; rw [hp] at hq; cases hq
  case pending_eos => intro q hq; rw [hp] at hq; cases hq
  case waiter_eos =>
    intro q hq hqe
    rw [show s.pcmoutWaiter = some q from hq] at hw
    cases hw

/-- Preservation of the invariant when an audio packet goes through both
vorbis_synthesis and vorbis_synthesis_blockin successfully: _blockin is set
and the blockin event fires the waiting read, if any. -/
theorem inv_audioOk (s : St) (pkt : Packet) (hInv : Inv s)
    (hp : s.pending = []) (herr : s.erred = false) (heof : s.eofDelivered = false)
    (h0 : s._headerCount = 0) (hb : s._blockin = false)
    (heos : pkt.e_o_s = true → s.eosArrived = true) :
    Inv (emitBlockin
      { s with _blockin := true,
               _gotEos := s._gotEos || pkt.e_o_s,
               synthCalls := s.synthCalls + 1,
               blockinCalls := s.blockinCalls + 1 }) := by
  have hw : s.pcmoutWaiter = none := by
    cases hwv : s.pcmoutWaiter with
    | none => rfl
    | some q =>
      have hb' := hInv.waiter_blockin (by rw [hwv]; simp)
      rw [hb'] at hb
      cases hb
  have hEor : (s._gotEos || pkt.e_o_s) = true → s.eosArrived = true := by
    intro h
    cases hg : s._gotEos with
    | true => exact hInv.eos_arrived hg
    | false =>
        rw [hg] at h
        simp at h
        exact heos h
  have hsle : s.synthCalls + 1 ≤ s.pcmZeroCount + 1 := by
    have := hInv.synth_le' herr hb
    omega
  have hble : s.blockinCalls + 1 ≤ s.synthCalls + 1 := by
    have := hInv.blockin_le_synth
    omega
  rw [emitBlockin]
  by_cases hbw : s.blockinWaiter = true
  all_goals simp only [hbw, if_pos, if_neg, Bool.not_eq_true]
  case pos =>
    constructor
    case waiter_blockin => intro _; rfl
    case eos_arrived => exact hEor
    case eos_hdr => intro _; exact h0
    case blockin_hdr => intro _; exact h0
    case hdr_total => exact hInv.hdr_total
    case synth_le => exact hsle
    case synth_le' =>
      intro _ h
      exact absurd (show (true : Bool) = false from h) (by simp)
    case blockin_le_synth => exact hble
    case erred_down =>
      intro h
      rw [show s.erred = true from h] at herr
      cases herr
    case err_count => exact hInv.err_count
    case hdr_phase =>
      intro h
      have h' : 0 < s._headerCount := h
      omega
    case post_hdr => intro _; exact hInv.post_hdr h0
    case eof_down =>
      intro h
      rw [show s.eofDelivered = true from h] at heof
      cases heof
    case eof_last =>
      intro h
      rw [show s.eofDelivered = true from h] at heof
      cases heof
    case eof_not => intro _; exact hInv.eof_not heof
    case gotEos_waiter => intro _; exact hw
    case pending_short =>
      right
      refine ⟨DecTask.readTask, ?_⟩
      show s.pending ++ [DecTask.readTask] = _
      rw [hp]
      rfl
    case pending_packet =>
      intro q hq
      have hq' : DecTask.packetTask q ∈ s.pending ++ [DecTask.readTask] := hq
      rw [hp] at hq'
      simp at hq'
    case pending_eos =>
      intro q hq
      have hq' : DecTask.packetTask q ∈ s.pending ++ [DecTask.readTask] := hq
      rw [hp] at hq'
      simp at hq'
    case waiter_eos =>
      intro q hq hqe
      rw [show s.pcmoutWaiter = some q from hq] at hw
      cases hw
  case neg =>
    constructor
    case waiter_blockin => intro _; rfl
    case eos_arrived => exact hEor
    case eos_hdr => intro _; exact h0
    case blockin_hdr => intro _; exact h0
    case hdr_total => exact hInv.hdr_total
    case synth_le => exact hsle
    case synth_le' =>
      intro _ h
      exact absurd (show (true : Bool) = false from h) (by simp)
    case blockin_le_synth => exact hble
    case erred_down =>
      intro h
      rw [show s.erred = true from h] at herr
      cases herr
    case err_count => exact hInv.err_count
    case hdr_phase =>
      intro h
      have h' : 0 < s._headerCount := h
      omega
    case post_hdr => intro _; exact hInv.post_hdr h0
    case eof_down =>
      intro h
      rw [show s.eofDelivered = true from h] at heof
      cases heof
    case eof_last =>
      intro h
      rw [show s.eofDelivered = true from h] at heof
      cases heof
    case eof_not => intro _; exact hInv.eof_not heof
    case gotEos_waiter => intro _; exact hw
    case pending_short => left; exact hp
    case pending_packet => intro q hq; rw [hp] at hq; cases hq
    case pending_eos => intro q hq; rw [hp] at hq; cases hq
    case waiter_eos =>
      intro q hq hqe
      rw [show s.pcmoutWaiter = some q from hq] at hw
      cases hw

/-- Any invocation of packetin (from the packet listener or a resumed
once('pcmout') handler) preserves the invariant.  The context hypotheses hold
at every invocation site: no other resumed handler is pending, the decoder has
not erred (else the listener is gone and no retry can be parked), the
end-of-file result has not been delivered, a block can only be in before the
end-of-stream packet has been processed, and the arrival of an end-of-stream
packet has been recorded. -/
theorem packetin_inv (e : Engine) (s : St) (pkt : Packet) (hInv : Inv s)
    (hp : s.pending = []) (herr : s.erred = false) (heof : s.eofDelivered = false)
    (hbe : s._blockin = true → s._gotEos = false)
    (heos : pkt.e_o_s = true → s.eosArrived = true) :
    Inv (packetin e s pkt) := by
  by_cases h0 : 0 < s._headerCount
  · by_cases hr : e.headerin s.headerCalls pkt = 0
    · by_cases h1 : s._headerCount = 1
      · by_cases hi : e.synthesisInit = 0
        · by_cases hbi : e.blockInit = 0
          · rw [packetin_hdrLast_initOk e s pkt h1 hr hi hbi]
            exact inv_hdrLast s hInv Ev.hdrOk hp herr heof h1
              (by simp) (by simp) (by simp) rfl
          · rw [packetin_hdrLast_initFail2 e s pkt h1 hr hi hbi]
            exact inv_hdrLast s hInv (Ev.initErr e.blockInit) hp herr heof h1
              (by simp) (by simp) (by simp) rfl
        · rw [packetin_hdrLast_initFail1 e s pkt h1 hr hi]
          exact inv_hdrLast s hInv (Ev.initErr e.synthesisInit) hp herr heof h1
            (by simp) (by simp) (by simp) rfl
      · have h2 : 2 ≤ s._headerCount := by omega
        rw [packetin_hdrOk_more e s pkt h2 hr]
        exact inv_hdrOkMore s hInv hp herr heof h2
    · rw [packetin_hdrFail e s pkt h0 hr]
      exact inv_hdrFail s (e.headerin s.headerCalls pkt) hInv hp herr heof h0
  · have h00 : s._headerCount = 0 := by omega
    by_cases hb : s._blockin = true
    · rw [packetin_defer e s pkt h00 hb]
      exact inv_defer s pkt hInv hp herr heof h00 hb (hbe hb) heos
    · have hbf : s._blockin = false := by
        cases hbv : s._blockin with
        | false => rfl
        | true => exact absurd hbv hb
      by_cases hr : e.synthesis s.synthCalls pkt = 0
      · by_cases hr2 : e.blockin s.blockinCalls = 0
        · rw [packetin_audioOk e s pkt h00 hbf hr hr2]
          exact inv_audioOk s pkt hInv hp herr heof h00 hbf heos
        · rw [packetin_blockinFail e s pkt h00 hbf hr hr2]
          exact inv_blockinFail s pkt (e.blockin s.blockinCalls) hInv hp herr
            heof h00 hbf heos
      · rw [packetin_synthFail e s pkt h00 hbf hr]
        exact inv_synthFail s (e.synthesis s.synthCalls pkt) hInv hp herr heof
          h00 hbf

theorem countErr_single_eof : countErr [Ev.eof] = 0 := rfl

theorem countErr_single_readErr (r : Int) : countErr [Ev.readErr r] = 0 := rfl

theorem countErr_single_chunk (b : Int) : countErr [Ev.chunk b] = 0 := rfl

/-- The invariant never mentions the blockinWaiter flag, so registering or
clearing the once('blockin') handler preserves it. -/
theorem inv_setBlockinWaiter (s : St) (b : Bool) (hInv : Inv s) :
    Inv { s with blockinWaiter := b } := by
  obtain ⟨i1, i2, i3, i4, i5, i6, i7, i8, i9, i10, i11, i12, i13, i14, i15,
    i16, i17, i18, i19, i20⟩ := hInv
  exact ⟨i1, i2, i3, i4, i5, i6, i7, i8, i9, i10, i11, i12, i13, i14, i15,
    i16, i17, i18, i19, i20⟩

/-- A state with a block in has not erred (Decoder._error only runs on the
audio path, where no block is in, and nothing sets _blockin afterwards). -/
theorem inv_blockin_not_erred (s : St) (hInv : Inv s) (hb : s._blockin = true) :
    s.erred = false := by
  cases he : s.erred with
  | false => rfl
  | true =>
      have h := (hInv.erred_down he).2.1
      rw [h] at hb
      cases hb

/-- A state with a block in has not delivered the end-of-file result. -/
theorem inv_blockin_not_eof (s : St) (hInv : Inv s) (hb : s._blockin = true) :
    s.eofDelivered = false := by
  cases he : s.eofDelivered with
  | false => rfl
  | true =>
      have h := (hInv.eof_down he).2.1
      rw [h] at hb
      cases hb

/-- Preservation of the invariant when vorbis_synthesis_pcmout returns zero
with the end-of-stream marker seen: the end-of-file result is delivered. -/
theorem inv_readZeroEos (e : Engine) (s : St) (hInv : Inv s)
    (hp : s.pending = []) (hb : s._blockin = true) (hge : s._gotEos = true) :
    Inv (emitPcmout
      { s with _blockin := false,
               pcmoutCalls := s.pcmoutCalls + 1,
               pcmZeroCount := s.pcmZeroCount + 1,
               eofDelivered := true,
               trace := s.trace ++ [Ev.eof] }) := by
  have herr : s.erred = false := inv_blockin_not_erred s hInv hb
  have heof : s.eofDelivered = false := inv_blockin_not_eof s hInv hb
  have hw : s.pcmoutWaiter = none := hInv.gotEos_waiter hge
  have h0 : s._headerCount = 0 := hInv.blockin_hdr hb
  rw [emitPcmout]
  simp only [hw]
  constructor
  case waiter_blockin => intro hc; exact absurd rfl hc
  case eos_arrived => exact hInv.eos_arrived
  case eos_hdr => intro _; exact h0
  case blockin_hdr =>
    intro h
    exact absurd (show (false : Bool) = true from h) (by simp)
  case hdr_total => exact hInv.hdr_total
  case synth_le =>
    show s.synthCalls ≤ s.pcmZeroCount + 1 + 1
    have := hInv.synth_le
    omega
  case synth_le' =>
    intro _ _
    show s.synthCalls ≤ s.pcmZeroCount + 1
    exact hInv.synth_le
  case blockin_le_synth => exact hInv.blockin_le_synth
  case erred_down =>
    intro h
    rw [show s.erred = true from h] at herr
    cases herr
  case err_count =>
    show countErr (s.trace ++ [Ev.eof]) = _
    rw [countErr_append, countErr_single_eof, Nat.add_zero]
    exact hInv.err_count
  case hdr_phase =>
    intro h
    have h' : 0 < s._headerCount := h
    omega
  case post_hdr =>
    intro _
    obtain ⟨p, q, htr, hc1, hf1, hch, hc2, hf2⟩ := hInv.post_hdr h0
    refine ⟨p, q ++ [Ev.eof], ?_, hc1, hf1, hch, ?_, ?_⟩
    · show s.trace ++ [Ev.eof] = _
      rw [htr]
      simp
    · exact List.not_mem_append hc2 (by simp)
    · exact List.not_mem_append hf2 (by simp)
  case eof_down => intro _; exact ⟨hge, rfl, rfl, hp⟩
  case eof_last => intro _; exact ⟨s.trace, rfl, hInv.eof_not heof⟩
  case eof_not =>
    intro h
    exact absurd (show (true : Bool) = false from h) (by simp)
  case gotEos_waiter => intro _; rfl
  case pending_short => left; exact hp
  case pending_packet => intro q hq; rw [hp] at hq; cases hq
  case pending_eos => intro q hq; rw [hp] at hq; cases hq
  case waiter_eos =>
    intro q hq
    cases (show (none : Option Packet) = some q from hq)

/-- Preservation of the invariant when vorbis_synthesis_pcmout returns zero
without the end-of-stream marker: the read re-registers and the pcmout event
resumes a deferred packet, if any. -/
theorem inv_readZeroNoEos (e : Engine) (s : St) (hInv : Inv s)
    (hp : s.pending = []) (hb : s._blockin = true) (hge : s._gotEos = false) :
    Inv (emitPcmout
      { s with _blockin := false,
               pcmoutCalls := s.pcmoutCalls + 1,
               pcmZeroCount := s.pcmZeroCount + 1,
               blockinWaiter := true }) := by
  have herr : s.erred = false := inv_blockin_not_erred s hInv hb
  have heof : s.eofDelivered = false := inv_blockin_not_eof s hInv hb
  have h0 : s._headerCount = 0 := hInv.blockin_hdr hb
  rw [emitPcmout]
  cases hwv : s.pcmoutWaiter with
  | none =>
      simp only
      constructor
      case waiter_blockin => intro hc; exact absurd rfl hc
      case eos_arrived => exact hInv.eos_arrived
      case eos_hdr => intro _; exact h0
      case blockin_hdr =>
        intro h
        exact absurd (show (false : Bool) = true from h) (by simp)
      case hdr_total => exact hInv.hdr_total
      case synth_le =>
        show s.synthCalls ≤ s.pcmZeroCount + 1 + 1
        have := hInv.synth_le
        omega
      case synth_le' =>
        intro _ _
        show s.synthCalls ≤ s.pcmZeroCount + 1
        exact hInv.synth_le
      case blockin_le_synth => exact hInv.blockin_le_synth
      case erred_down =>
        intro h
        rw [show s.erred = true from h] at herr
        cases herr
      case err_count => exact hInv.err_count
      case hdr_phase =>
        intro h
        have h' : 0 < s._headerCount := h
        omega
      case post_hdr => intro _; exact hInv.post_hdr h0
      case eof_down =>
        intro h
        rw [show s.eofDelivered = true from h] at heof
        cases heof
      case eof_last =>
        intro h
        rw [show s.eofDelivered = true from h] at heof
        cases heof
      case eof_not => intro _; exact hInv.eof_not heof
      case gotEos_waiter => intro _; rfl
      case pending_short => left; exact hp
      case pending_packet => intro q hq; rw [hp] at hq; cases hq
      case pending_eos => intro q hq; rw [hp] at hq; cases hq
      case waiter_eos =>
        intro q hq
        cases (show (none : Option Packet) = some q from hq)
  | some pkt =>
      simp only
      constructor
      case waiter_blockin => intro hc; exact absurd rfl hc
      case eos_arrived => exact hInv.eos_arrived
      case eos_hdr => intro _; exact h0
      case blockin_hdr =>
        intro h
        exact absurd (show (false : Bool) = true from h) (by simp)
      case hdr_total => exact hInv.hdr_total
      case synth_le =>
        show s.synthCalls ≤ s.pcmZeroCount + 1 + 1
        have := hInv.synth_le
        omega
      case synth_le' =>
        intro _ _
        show s.synthCalls ≤ s.pcmZeroCount + 1
        exact hInv.synth_le
      case blockin_le_synth => exact hInv.blockin_le_synth
      case erred_down =>
        intro h
        rw [show s.erred = true from h] at herr
        cases herr
      case err_count => exact hInv.err_count
      case hdr_phase =>
        intro h
        have h' : 0 < s._headerCount := h
        omega
      case post_hdr => intro _; exact hInv.post_hdr h0
      case eof_down =>
        intro h
        rw [show s.eofDelivered = true from h] at heof
        cases heof
      case eof_last =>
        intro h
        rw [show s.eofDelivered = true from h] at heof
        cases heof
      case eof_not => intro _; exact hInv.eof_not heof
      case gotEos_waiter => intro _; rfl
      case pending_short =>
        right
        refine ⟨DecTask.packetTask pkt, ?_⟩
        show s.pending ++ [DecTask.packetTask pkt] = _
        rw [hp]
        rfl
      case pending_packet =>
        intro q hq
        exact ⟨rfl, h0, herr⟩
      case pending_eos =>
        intro q hq hqe
        have hq' : DecTask.packetTask q ∈ s.pending ++ [DecTask.packetTask pkt] := hq
        rw [hp] at hq'
        simp at hq'
        rw [hq'] at hqe
        exact hInv.waiter_eos pkt hwv hqe
      case waiter_eos =>
        intro q hq
        cases (show (none : Option Packet) = some q from hq)

/-- Preservation of the invariant when vorbis_synthesis_pcmout reports an
error: a read failure is delivered and nothing else changes. -/
theorem inv_readNeg (s : St) (r : Int) (hInv : Inv s)
    (hp : s.pending = []) (hb : s._blockin = true) :
    Inv { s with pcmoutCalls := s.pcmoutCalls + 1,
                 trace := s.trace ++ [Ev.readErr r] } := by
  have herr : s.erred = false := inv_blockin_not_erred s hInv hb
  have heof : s.eofDelivered = false := inv_blockin_not_eof s hInv hb
  have h0 : s._headerCount = 0 := hInv.blockin_hdr hb
  constructor
  case waiter_blockin => exact hInv.waiter_blockin
  case eos_arrived => exact hInv.eos_arrived
  case eos_hdr => intro _; exact h0
  case blockin_hdr => intro _; exact h0
  case hdr_total => exact hInv.hdr_total
  case synth_le => exact hInv.synth_le
  case synth_le' => exact hInv.synth_le'
  case blockin_le_synth => exact hInv.blockin_le_synth
  case erred_down =>
    intro h
    rw [show s.erred = true from h] at herr
    cases herr
  case err_count =>
    show countErr (s.trace ++ [Ev.readErr r]) = _
    rw [countErr_append, countErr_single_readErr, Nat.add_zero]
    exact hInv.err_count
  case hdr_phase =>
    intro h
    have h' : 0 < s._headerCount := h
    omega
  case post_hdr =>
    intro _
    obtain ⟨p, q, htr, hc1, hf1, hch, hc2, hf2⟩ := hInv.post_hdr h0
    refine ⟨p, q ++ [Ev.readErr r], ?_, hc1, hf1, hch, ?_, ?_⟩
    · show s.trace ++ [Ev.readErr r] = _
      rw [htr]
      simp
    · exact List.not_mem_append hc2 (by simp)
    · exact List.not_mem_append hf2 (by simp)
  case eof_down =>
    intro h
    rw [show s.eofDelivered = true from h] at heof
    cases heof
  case eof_last =>
    intro h
    rw [show s.eofDelivered = true from h] at heof
    cases heof
  case eof_not =>
    intro _
    exact List.not_mem_append (hInv.eof_not heof) (by simp)
  case gotEos_waiter => exact hInv.gotEos_waiter
  case pending_short => left; exact hp
  case pending_packet => intro q hq; rw [hp] at hq; cases hq
  case pending_eos => intro q hq; rw [hp] at hq; cases hq
  case waiter_eos => exact hInv.waiter_eos

/-- Preservation of the invariant when vorbis_synthesis_pcmout returns a
chunk: it is delivered and the block stays in. -/
theorem inv_readPos (s : St) (b : Int) (hInv : Inv s)
    (hp : s.pending = []) (hb : s._blockin = true) :
    Inv { s with pcmoutCalls := s.pcmoutCalls + 1,
                 trace := s.trace ++ [Ev.chunk b] } := by
  have herr : s.erred = false := inv_blockin_not_erred s hInv hb
  have heof : s.eofDelivered = false := inv_blockin_not_eof s hInv hb
  have h0 : s._headerCount = 0 := hInv.blockin_hdr hb
  constructor
  case waiter_blockin => exact hInv.waiter_blockin
  case eos_arrived => exact hInv.eos_arrived
  case eos_hdr => intro _; exact h0
  case blockin_hdr => intro _; exact h0
  case hdr_total => exact hInv.hdr_total
  case synth_le => exact hInv.synth_le
  case synth_le' => exact hInv.synth_le'
  case blockin_le_synth => exact hInv.blockin_le_synth
  case erred_down =>
    intro h
    rw [show s.erred = true from h] at herr
    cases herr
  case err_count =>
    show countErr (s.trace ++ [Ev.chunk b]) = _
    rw [countErr_append, countErr_single_chunk, Nat.add_zero]
    exact hInv.err_count
  case hdr_phase =>
    intro h
    have h' : 0 < s._headerCount := h
    omega
  case post_hdr =>
    intro _
    obtain ⟨p, q, htr, hc1, hf1, hch, hc2, hf2⟩ := hInv.post_hdr h0
    refine ⟨p, q ++ [Ev.chunk b], ?_, hc1, hf1, hch, ?_, ?_⟩
    · show s.trace ++ [Ev.chunk b] = _
      rw [htr]
      simp
    · exact List.not_mem_append hc2 (by simp)
    · exact List.not_mem_append hf2 (by simp)
  case eof_down =>
    intro h
    rw [show s.eofDelivered = true from h] at heof
    cases heof
  case eof_last =>
    intro h
    rw [show s.eofDelivered = true from h] at heof
    cases heof
  case eof_not =>
    intro _
    exact List.not_mem_append (hInv.eof_not heof) (by simp)
  case gotEos_waiter => exact hInv.gotEos_waiter
  case pending_short => left; exact hp
  case pending_packet => intro q hq; rw [hp] at hq; cases hq
  case pending_eos => intro q hq; rw [hp] at hq; cases hq
  case waiter_eos => exact hInv.waiter_eos

/-- Any invocation of _read (from a consumer read demand or a resumed
once('blockin') handler) preserves the invariant. -/
theorem read_inv (e : Engine) (s : St) (hInv : Inv s)
    (hp : s.pending = []) :
    Inv (_read e s) := by
  by_cases hb : s._blockin = true
  · by_cases hz : e.pcmout s.pcmoutCalls = 0
    · cases hge : s._gotEos with
      | true =>
          rw [read_zero_eos e s hb hz hge]
          exact inv_readZeroEos e s hInv hp hb hge
      | false =>
          rw [read_zero_noEos e s hb hz hge]
          exact inv_readZeroNoEos e s hInv hp hb hge
    · by_cases hn : e.pcmout s.pcmoutCalls < 0
      · rw [read_neg e s hb hn]
        exact inv_readNeg s (e.pcmout s.pcmoutCalls) hInv hp hb
      · have hpos : 0 < e.pcmout s.pcmoutCalls := by omega
        rw [read_pos e s hb hpos]
        exact inv_readPos s (e.pcmout s.pcmoutCalls) hInv hp hb
  · have hbf : s._blockin = false := by
      cases hbv : s._blockin with
      | false => rfl
      | true => exact absurd hbv hb
    rw [read_noBlock e s hbf]
    exact inv_setBlockinWaiter s true hInv

/-- Recording the arrival of a packet (the ghost eosArrived update) preserves
the invariant. -/
theorem inv_setEosArrived (s : St) (b : Bool) (hInv : Inv s) :
    Inv { s with eosArrived := s.eosArrived || b } := by
  constructor
  case waiter_blockin => exact hInv.waiter_blockin
  case eos_arrived =>
    intro h
    show (s.eosArrived || b) = true
    rw [hInv.eos_arrived (show s._gotEos = true from h)]
    rfl
  case eos_hdr => exact hInv.eos_hdr
  case blockin_hdr => exact hInv.blockin_hdr
  case hdr_total => exact hInv.hdr_total
  case synth_le => exact hInv.synth_le
  case synth_le' => exact hInv.synth_le'
  case blockin_le_synth => exact hInv.blockin_le_synth
  case erred_down => exact hInv.erred_down
  case err_count => exact hInv.err_count
  case hdr_phase => exact hInv.hdr_phase
  case post_hdr => exact hInv.post_hdr
  case eof_down => exact hInv.eof_down
  case eof_last => exact hInv.eof_last
  case eof_not => exact hInv.eof_not
  case gotEos_waiter => exact hInv.gotEos_waiter
  case pending_short => exact hInv.pending_short
  case pending_packet => exact hInv.pending_packet
  case pending_eos =>
    intro q hq hqe
    show (s.eosArrived || b) = true
    rw [hInv.pending_eos q hq hqe]
    rfl
  case waiter_eos =>
    intro q hq hqe
    show (s.eosArrived || b) = true
    rw [hInv.waiter_eos q hq hqe]
    rfl

/-- Popping the pending task queue (before running the task) preserves the
invariant. -/
theorem inv_pop (s : St) (hInv : Inv s) : Inv { s with pending := [] } := by
  constructor
  case waiter_blockin => exact hInv.waiter_blockin
  case eos_arrived => exact hInv.eos_arrived
  case eos_hdr => exact hInv.eos_hdr
  case blockin_hdr => exact hInv.blockin_hdr
  case hdr_total => exact hInv.hdr_total
  case synth_le => exact hInv.synth_le
  case synth_le' => exact hInv.synth_le'
  case blockin_le_synth => exact hInv.blockin_le_synth
  case erred_down =>
    intro h
    obtain ⟨a, b, c, _, e'⟩ := hInv.erred_down (show s.erred = true from h)
    exact ⟨a, b, c, rfl, e'⟩
  case err_count => exact hInv.err_count
  case hdr_phase =>
    intro h
    obtain ⟨_, h2, h3, h4, h5⟩ :=
      hInv.hdr_phase (show 0 < s._headerCount from h)
    exact ⟨rfl, h2, h3, h4, h5⟩
  case post_hdr => exact hInv.post_hdr
  case eof_down =>
    intro h
    obtain ⟨a, b, c, _⟩ := hInv.eof_down (show s.eofDelivered = true from h)
    exact ⟨a, b, c, rfl⟩
  case eof_last => exact hInv.eof_last
  case eof_not => exact hInv.eof_not
  case gotEos_waiter => exact hInv.gotEos_waiter
  case pending_short => left; rfl
  case pending_packet => intro q hq; cases hq
  case pending_eos => intro q hq; cases hq
  case waiter_eos => exact hInv.waiter_eos

/-- Every step of the decoder state machine preserves the invariant. -/
theorem step_inv (e : Engine) {s s' : St} (hInv : Inv s)
    (hstep : Step e s s') : Inv s' := by
  cases hstep with
  | packetArrive pkt hp hw he =>
      rw [arrive]
      have hInv1 : Inv { s with eosArrived := s.eosArrived || pkt.e_o_s } :=
        inv_setEosArrived s pkt.e_o_s hInv
      by_cases ha : s.attached = true
      · rw [if_pos ha]
        apply packetin_inv e _ pkt hInv1 hp
        · cases hev : s.erred with
          | false => rfl
          | true =>
              have h := (hInv.erred_down hev).1
              rw [h] at ha
              cases (show (false : Bool) = true from ha)
        · cases hev : s.eofDelivered with
          | false => rfl
          | true =>
              have hg := (hInv.eof_down hev).1
              have hea := hInv.eos_arrived hg
              rw [hea] at he
              cases he
        · intro hb
          cases hgv : s._gotEos with
          | false => rfl
          | true =>
              have hea := hInv.eos_arrived hgv
              rw [hea] at he
              cases he
        · intro hpe
          show (s.eosArrived || pkt.e_o_s) = true
          rw [hpe]
          simp
      · rw [if_neg ha]
        exact hInv1
  | readDemand hp hw => exact read_inv e s hInv hp
  | internal t ts hpend =>
      have hts : ts = [] := by
        rcases hInv.pending_short with h | ⟨t', h⟩
        · rw [hpend] at h; cases h
        · rw [hpend] at h
          injection h with h1 h2
      subst hts
      have hInv1 : Inv { s with pending := [] } := inv_pop s hInv
      cases t with
      | readTask =>
          show Inv (_read e _)
          exact read_inv e _ hInv1 rfl
      | packetTask pkt =>
          have hmem : DecTask.packetTask pkt ∈ s.pending := by
            rw [hpend]; exact List.mem_cons_self _ _
          obtain ⟨hb, h0, herr⟩ := hInv.pending_packet pkt hmem
          have heos := hInv.pending_eos pkt hmem
          have heof : s.eofDelivered = false := by
            cases hev : s.eofDelivered with
            | false => rfl
            | true =>
                have h := (hInv.eof_down hev).2.2.2
                rw [hpend] at h
                cases h
          show Inv (packetin e _ pkt)
          apply packetin_inv e _ pkt hInv1 rfl herr heof
          · intro h
            rw [show s._blockin = true from h] at hb
            cases hb
          · exact heos

/-- Every reachable state satisfies the invariant. -/
theorem reach_inv (e : Engine) {s : St} (h : Reach e s) : Inv s := by
  induction h with
  | start => exact inv_initSt
  | step _ hstep ih => exact step_inv e ih hstep

theorem emitBlockin_headerCalls (s : St) :
    (emitBlockin s).headerCalls = s.headerCalls := by
  rw [emitBlockin]; split <;> rfl

theorem emitBlockin_hdrOkCount (s : St) :
    (emitBlockin s).hdrOkCount = s.hdrOkCount := by
  rw [emitBlockin]; split <;> rfl

theorem emitBlockin_synthCalls (s : St) :
    (emitBlockin s).synthCalls = s.synthCalls := by
  rw [emitBlockin]; split <;> rfl

theorem emitBlockin_trace (s : St) : (emitBlockin s).trace = s.trace := by
  rw [emitBlockin]; split <;> rfl

theorem emitBlockin_headerCount (s : St) :
    (emitBlockin s)._headerCount = s._headerCount := by
  rw [emitBlockin]; split <;> rfl

theorem emitPcmout_trace (s : St) : (emitPcmout s).trace = s.trace := by
  rw [emitPcmout]
  cases s.pcmoutWaiter <;> rfl

theorem emitPcmout_blockinWaiter (s : St) :
    (emitPcmout s).blockinWaiter = s.blockinWaiter := by
  rw [emitPcmout]
  cases s.pcmoutWaiter <;> rfl

theorem emitPcmout_eofDelivered (s : St) :
    (emitPcmout s).eofDelivered = s.eofDelivered := by
  rw [emitPcmout]
  cases s.pcmoutWaiter <;> rfl

/-- Claim C6: every engine-reported failure - header-parse failure,
block-synthesis failure, block-accumulation failure, and negative pcm-extract
status alike - is translated to an error value of the orchestration layer and
surfaced through its error channel (recorded in the trace: the header error
handed to the packet callback, the error event raised by _error, the read
failure handed to the consumer), and the failing engine call is never retried
by the decoder: each failure path performs exactly the one engine call and
leaves the state otherwise so that no repeated invocation occurs. -/
theorem engine_failure_surfaced (e : Engine) :
    (∀ s pkt, 0 < s._headerCount → e.headerin s.headerCalls pkt ≠ 0 →
        packetin e s pkt =
          { s with headerCalls := s.headerCalls + 1,
                   trace := s.trace ++
                     [Ev.hdrErr (e.headerin s.headerCalls pkt)] }) ∧
    (∀ s pkt, s._headerCount = 0 → s._blockin = false →
        e.synthesis s.synthCalls pkt ≠ 0 →
        packetin e s pkt =
          { s with synthCalls := s.synthCalls + 1,
                   attached := false, erred := true,
                   trace := s.trace ++
                     [Ev.errorEvent (e.synthesis s.synthCalls pkt)] }) ∧
    (∀ s pkt, s._headerCount = 0 → s._blockin = false →
        e.synthesis s.synthCalls pkt = 0 → e.blockin s.blockinCalls ≠ 0 →
        packetin e s pkt =
          { s with _gotEos := s._gotEos || pkt.e_o_s,
                   synthCalls := s.synthCalls + 1,
                   blockinCalls := s.blockinCalls + 1,
                   attached := false, erred := true,
                   trace := s.trace ++
                     [Ev.errorEvent (e.blockin s.blockinCalls)] }) ∧
    (∀ s, s._blockin = true → e.pcmout s.pcmoutCalls < 0 →
        _read e s =
          { s with pcmoutCalls := s.pcmoutCalls + 1,
                   trace := s.trace ++
                     [Ev.readErr (e.pcmout s.pcmoutCalls)] }) := by
  refine ⟨?_, ?_, ?_, ?_⟩
  · intro s pkt h0 hr
    exact packetin_hdrFail e s pkt h0 hr
  · intro s pkt h0 hb hr
    exact packetin_synthFail e s pkt h0 hb hr
  · intro s pkt h0 hb hr hr2
    exact packetin_blockinFail e s pkt h0 hb hr hr2
  · intro s hb hn
    exact read_neg e s hb hn

/-- Engine that fails header parsing with status 7. -/
def eH : Engine :=
  { headerin := fun _ _ => 7, synthesisInit := 0, blockInit := 0,
    synthesis := fun _ _ => 0, blockin := fun _ => 0, pcmout := fun _ => 1 }

/-- Engine that fails vorbis_synthesis with status 3. -/
def eS : Engine :=
  { headerin := fun _ _ => 0, synthesisInit := 0, blockInit := 0,
    synthesis := fun _ _ => 3, blockin := fun _ => 0, pcmout := fun _ => 1 }

/-- Engine that fails vorbis_synthesis_blockin with status 4. -/
def eB : Engine :=
  { headerin := fun _ _ => 0, synthesisInit := 0, blockInit := 0,
    synthesis := fun _ _ => 0, blockin := fun _ => 4, pcmout := fun _ => 1 }

/-- Engine that fails vorbis_synthesis_pcmout with status -2. -/
def eP : Engine :=
  { headerin := fun _ _ => 0, synthesisInit := 0, blockInit := 0,
    synthesis := fun _ _ => 0, blockin := fun _ => 0, pcmout := fun _ => -2 }

/-- A non-end-of-stream packet with the given packet number. -/
def pkt (n : Nat) : Packet := { packetno := n, e_o_s := false }

/-- An end-of-stream packet with the given packet number. -/
def pktE (n : Nat) : Packet := { packetno := n, e_o_s := true }

/-- A decoder state with header negotiation complete and no block in. -/
def stH0 : St := { initSt with _headerCount := 0 }

/-- A decoder state with header negotiation complete and a block in. -/
def stB : St := { initSt with _headerCount := 0, _blockin := true }

theorem engine_failure_surfaced_witness :
    packetin eH initSt (pkt 1) =
      { initSt with headerCalls := 1, trace := [Ev.hdrErr 7] } ∧
    packetin eS stH0 (pkt 4) =
      { stH0 with synthCalls := 1, attached := false, erred := true,
                  trace := [Ev.errorEvent 3] } ∧
    packetin eB stH0 (pkt 4) =
      { stH0 with _gotEos := false, synthCalls := 1, blockinCalls := 1,
                  attached := false, erred := true,
                  trace := [Ev.errorEvent 4] } ∧
    _read eP stB =
      { stB with pcmoutCalls := 1, trace := [Ev.readErr (-2)] } := by
  refine ⟨?_, ?_, ?_, ?_⟩
  · have h := (engine_failure_surfaced eH).1 initSt (pkt 1)
      (by decide) (by decide)
    rw [h]
    decide
  · have h := (engine_failure_surfaced eS).2.1 stH0 (pkt 4)
      (by decide) (by decide) (by decide)
    rw [h]
    decide
  · have h := (engine_failure_surfaced eB).2.2.1 stH0 (pkt 4)
      (by decide) (by decide) (by decide) (by decide)
    rw [h]
    decide
  · have h := (engine_failure_surfaced eP).2.2.2 stB
      (by decide) (by decide)
    rw [h]
    decide

/-- Claim C9: when a header packet fails engine parsing (non-zero status), the
decode session state is unchanged apart from the ghost call counter and the
error handed to the packet callback: the header counter is not decremented, no
comments, format or error events are emitted, the waiters are untouched and
the decoder remains attached to the Packet Source, so the next arriving packet
is again processed as a header packet. -/
theorem header_error_atomic (e : Engine) (s : St) (pkt' : Packet)
    (h0 : 0 < s._headerCount) (hr : e.headerin s.headerCalls pkt' ≠ 0) :
    packetin e s pkt' =
      { s with headerCalls := s.headerCalls + 1,
               trace := s.trace ++
                 [Ev.hdrErr (e.headerin s.headerCalls pkt')] } ∧
    0 < (packetin e s pkt')._headerCount ∧
    (packetin e s pkt').attached = s.attached := by
  have h := packetin_hdrFail e s pkt' h0 hr
  refine ⟨h, ?_, ?_⟩
  · rw [h]; exact h0
  · rw [h]

theorem header_error_atomic_witness :
    packetin eH initSt (pkt 1) =
      { initSt with headerCalls := 1, trace := [Ev.hdrErr 7] } ∧
    0 < (packetin eH initSt (pkt 1))._headerCount ∧
    (packetin eH initSt (pkt 1)).attached = initSt.attached := by
  have h := header_error_atomic eH initSt (pkt 1) (by decide) (by decide)
  refine ⟨?_, h.2.1, h.2.2⟩
  rw [h.1]
  decide

/-- Engine that parses headers but fails vorbis_synthesis_init with status 5. -/
def eI : Engine :=
  { headerin := fun _ _ => 0, synthesisInit := 5, blockInit := 0,
    synthesis := fun _ _ => 0, blockin := fun _ => 0, pcmout := fun _ => 1 }

/-- Engine that parses headers but fails vorbis_block_init with status 6. -/
def eI2 : Engine :=
  { headerin := fun _ _ => 0, synthesisInit := 0, blockInit := 6,
    synthesis := fun _ _ => 0, blockin := fun _ => 0, pcmout := fun _ => 1 }

/-- A decoder state with one header packet still outstanding. -/
def stH1 : St := { initSt with _headerCount := 1 }

/-- Claim C10: when the third header packet parses successfully but synthesis
initialization fails (in vorbis_synthesis_init or vorbis_block_init), the
comments and format events have both already been emitted before the
initialization error is handed to the caller: the trace gains comments, then
format, then the initialization error, in that order. -/
theorem init_error_after_events (e : Engine) (s : St) (pkt' : Packet)
    (h0 : s._headerCount = 1) (hr : e.headerin s.headerCalls pkt' = 0) :
    (e.synthesisInit ≠ 0 →
      packetin e s pkt' =
        { s with _headerCount := 0,
                 headerCalls := s.headerCalls + 1,
                 hdrOkCount := s.hdrOkCount + 1,
                 vdAlloc := true,
                 trace := s.trace ++
                   [Ev.comments, Ev.format, Ev.initErr e.synthesisInit] }) ∧
    (e.synthesisInit = 0 → e.blockInit ≠ 0 →
      packetin e s pkt' =
        { s with _headerCount := 0,
                 headerCalls := s.headerCalls + 1,
                 hdrOkCount := s.hdrOkCount + 1,
                 vdAlloc := true,
                 trace := s.trace ++
                   [Ev.comments, Ev.format, Ev.initErr e.blockInit] }) := by
  constructor
  · intro hi
    exact packetin_hdrLast_initFail1 e s pkt' h0 hr hi
  · intro hi hbi
    exact packetin_hdrLast_initFail2 e s pkt' h0 hr hi hbi

theorem init_error_after_events_witness :
    packetin eI stH1 (pkt 3) =
      { stH1 with _headerCount := 0, headerCalls := 1, hdrOkCount := 1,
                  vdAlloc := true,
                  trace := [Ev.comments, Ev.format, Ev.initErr 5] } ∧
    packetin eI2 stH1 (pkt 3) =
      { stH1 with _headerCount := 0, headerCalls := 1, hdrOkCount := 1,
                  vdAlloc := true,
                  trace := [Ev.comments, Ev.format, Ev.initErr 6] } := by
  constructor
  · have h := (init_error_after_events eI stH1 (pkt 3) (by decide) (by decide)).1
      (by decide)
    rw [h]
    decide
  · have h := (init_error_after_events eI2 stH1 (pkt 3) (by decide) (by decide)).2
      (by decide) (by decide)
    rw [h]
    decide

/-- Engine that succeeds everywhere and always has PCM data available. -/
def e0 : Engine :=
  { headerin := fun _ _ => 0, synthesisInit := 0, blockInit := 0,
    synthesis := fun _ _ => 0, blockin := fun _ => 0, pcmout := fun _ => 1 }

/-- Engine that succeeds everywhere and always reports an exhausted block. -/
def eD : Engine :=
  { headerin := fun _ _ => 0, synthesisInit := 0, blockInit := 0,
    synthesis := fun _ _ => 0, blockin := fun _ => 0, pcmout := fun _ => 0 }

/-- Engine that succeeds everywhere but fails the first PCM extraction with
status -3 and reports an exhausted block afterwards. -/
def eC : Engine :=
  { headerin := fun _ _ => 0, synthesisInit := 0, blockInit := 0,
    synthesis := fun _ _ => 0, blockin := fun _ => 0,
    pcmout := fun n => if n = 0 then -3 else 0 }

/-- Run A: three header packets then one audio packet under engine e0. -/
def a1 : St := arrive e0 initSt (pkt 1)

def a2 : St := arrive e0 a1 (pkt 2)

def a3 : St := arrive e0 a2 (pkt 3)

def a4 : St := arrive e0 a3 (pkt 4)

theorem reach_a1 : Reach e0 a1 :=
  Reach.step Reach.start
    (Step.packetArrive initSt (pkt 1) (by decide) (by decide) (by decide))

theorem reach_a2 : Reach e0 a2 :=
  Reach.step reach_a1
    (Step.packetArrive a1 (pkt 2) (by decide) (by decide) (by decide))

theorem reach_a3 : Reach e0 a3 :=
  Reach.step reach_a2
    (Step.packetArrive a2 (pkt 3) (by decide) (by decide) (by decide))

theorem reach_a4 : Reach e0 a4 :=
  Reach.step reach_a3
    (Step.packetArrive a3 (pkt 4) (by decide) (by decide) (by decide))

/-- Run D: three header packets, one audio packet (a block is then in), and a
deferred second audio packet under engine eD; also the end-of-stream variant
(run B) with an e_o_s audio packet followed by a draining read. -/
def d1 : St := arrive eD initSt (pkt 1)

def d2 : St := arrive eD d1 (pkt 2)

def d3 : St := arrive eD d2 (pkt 3)

def d4 : St := arrive eD d3 (pkt 4)

def d5 : St := arrive eD d4 (pkt 5)

def b4 : St := arrive eD d3 (pktE 4)

def b5 : St := _read eD b4

theorem reach_d1 : Reach eD d1 :=
  Reach.step Reach.start
    (Step.packetArrive initSt (pkt 1) (by decide) (by decide) (by decide))

theorem reach_d2 : Reach eD d2 :=
  Reach.step reach_d1
    (Step.packetArrive d1 (pkt 2) (by decide) (by decide) (by decide))

theorem reach_d3 : Reach eD d3 :=
  Reach.step reach_d2
    (Step.packetArrive d2 (pkt 3) (by decide) (by decide) (by decide))

theorem reach_d4 : Reach eD d4 :=
  Reach.step reach_d3
    (Step.packetArrive d3 (pkt 4) (by decide) (by decide) (by decide))

theorem reach_d5 : Reach eD d5 :=
  Reach.step reach_d4
    (Step.packetArrive d4 (pkt 5) (by decide) (by decide) (by decide))

theorem reach_b4 : Reach eD b4 :=
  Reach.step reach_d3
    (Step.packetArrive d3 (pktE 4) (by decide) (by decide) (by decide))

theorem reach_b5 : Reach eD b5 :=
  Reach.step reach_b4 (Step.readDemand b4 (by decide) (by decide))

/-- Run C: three header packets, one audio packet, a failing read, and a
further packet under engine eC. -/
def c1 : St := arrive eC initSt (pkt 1)

def c2 : St := arrive eC c1 (pkt 2)

def c3 : St := arrive eC c2 (pkt 3)

def c4 : St := arrive eC c3 (pkt 4)

def c5 : St := _read eC c4

def c6 : St := _read eC c5

def c7 : St := arrive eC c6 (pkt 5)

theorem reach_c1 : Reach eC c1 :=
  Reach.step Reach.start
    (Step.packetArrive initSt (pkt 1) (by decide) (by decide) (by decide))

theorem reach_c2 : Reach eC c2 :=
  Reach.step reach_c1
    (Step.packetArrive c1 (pkt 2) (by decide) (by decide) (by decide))

theorem reach_c3 : Reach eC c3 :=
  Reach.step reach_c2
    (Step.packetArrive c2 (pkt 3) (by decide) (by decide) (by decide))

theorem reach_c4 : Reach eC c4 :=
  Reach.step reach_c3
    (Step.packetArrive c3 (pkt 4) (by decide) (by decide) (by decide))

theorem reach_c5 : Reach eC c5 :=
  Reach.step reach_c4 (Step.readDemand c4 (by decide) (by decide))

theorem reach_c6 : Reach eC c6 :=
  Reach.step reach_c5 (Step.readDemand c5 (by decide) (by decide))

theorem reach_c7 : Reach eC c7 :=
  Reach.step reach_c6
    (Step.packetArrive c6 (pkt 5) (by decide) (by decide) (by decide))

/-- Run F: three header packets then an audio packet whose synthesis fails,
under engine eS: the decoder detaches and erred is set. -/
def f1 : St := arrive eS initSt (pkt 1)

def f2 : St := arrive eS f1 (pkt 2)

def f3 : St := arrive eS f2 (pkt 3)

def f4 : St := arrive eS f3 (pkt 4)

theorem reach_f1 : Reach eS f1 :=
  Reach.step Reach.start
    (Step.packetArrive initSt (pkt 1) (by decide) (by decide) (by decide))

theorem reach_f2 : Reach eS f2 :=
  Reach.step reach_f1
    (Step.packetArrive f1 (pkt 2) (by decide) (by decide) (by decide))

theorem reach_f3 : Reach eS f3 :=
  Reach.step reach_f2
    (Step.packetArrive f2 (pkt 3) (by decide) (by decide) (by decide))

theorem reach_f4 : Reach eS f4 :=
  Reach.step reach_f3
    (Step.packetArrive f3 (pkt 4) (by decide) (by decide) (by decide))

/-- Claim C1: after header negotiation, an audio packet submitted while
_blockin is true is never handed to the engine immediately: packetin only
parks it in the pcmout waiter (no engine call, no state change otherwise);
when a read drains the block (pcm-extract returns zero), the same packet is
re-queued for retry and the waiter is cleared; and in every execution the
number of engine block-submit calls (and of block-accumulate calls) never
exceeds the number of pcm-extract calls that returned zero, plus one. -/
theorem packetin_backpressure (e : Engine) :
    (∀ s pkt', s._headerCount = 0 → s._blockin = true →
        packetin e s pkt' = { s with pcmoutWaiter := some pkt' }) ∧
    (∀ s pkt', s._blockin = true → s.pcmoutWaiter = some pkt' →
        s._gotEos = false → e.pcmout s.pcmoutCalls = 0 →
        (_read e s).pending = s.pending ++ [DecTask.packetTask pkt'] ∧
        (_read e s).pcmoutWaiter = none ∧ (_read e s)._blockin = false) ∧
    (∀ s, Reach e s → s.synthCalls ≤ s.pcmZeroCount + 1 ∧
        s.blockinCalls ≤ s.pcmZeroCount + 1) := by
  refine ⟨?_, ?_, ?_⟩
  · intro s pkt' h0 hb
    exact packetin_defer e s pkt' h0 hb
  · intro s pkt' hb hw hge hz
    rw [read_zero_noEos e s hb hz hge, emitPcmout]
    simp only [hw]
    exact ⟨trivial, trivial, trivial⟩
  · intro s hre
    have hInv := reach_inv e hre
    exact ⟨hInv.synth_le, le_trans hInv.blockin_le_synth hInv.synth_le⟩

theorem packetin_backpressure_witness :
    packetin eD d4 (pkt 5) = { d4 with pcmoutWaiter := some (pkt 5) } ∧
    ((_read eD d5).pending = d5.pending ++ [DecTask.packetTask (pkt 5)] ∧
     (_read eD d5).pcmoutWaiter = none ∧ (_read eD d5)._blockin = false) ∧
    (d5.synthCalls ≤ d5.pcmZeroCount + 1 ∧
     d5.blockinCalls ≤ d5.pcmZeroCount + 1) :=
  ⟨(packetin_backpressure eD).1 d4 (pkt 5) (by decide) (by decide),
   (packetin_backpressure eD).2.1 d5 (pkt 5) (by decide) (by decide)
     (by decide) (by decide),
   (packetin_backpressure eD).2.2 d5 reach_d5⟩

/-- Claim C2: the header counter starts at 3 and is decremented once per
successful header packet (so headerCount plus the number of successful header
packets is always 3, and exactly 3 are ever consumed); while the counter is
positive no audio packet is processed (no block-submit or accumulate calls)
and no PCM is produced; and once the counter is zero a further packet is
processed as a normal audio packet, never as a header packet: the headerin
call count is frozen and (with no block in) the synthesis count increments. -/
theorem header_negotiation (e : Engine) :
    initSt._headerCount = 3 ∧
    (∀ s, Reach e s → s._headerCount + s.hdrOkCount = 3) ∧
    (∀ s, Reach e s → 0 < s._headerCount →
        s.synthCalls = 0 ∧ s.blockinCalls = 0 ∧ ∀ b, Ev.chunk b ∉ s.trace) ∧
    (∀ s pkt', s._headerCount = 0 →
        (packetin e s pkt').headerCalls = s.headerCalls ∧
        (packetin e s pkt').hdrOkCount = s.hdrOkCount ∧
        (s._blockin = false →
          (packetin e s pkt').synthCalls = s.synthCalls + 1)) := by
  refine ⟨rfl, ?_, ?_, ?_⟩
  · intro s hre
    exact (reach_inv e hre).hdr_total
  · intro s hre h0
    have hInv := reach_inv e hre
    obtain ⟨_, hsynth, _, _, hchunk⟩ := hInv.hdr_phase h0
    refine ⟨hsynth, ?_, hchunk⟩
    have := hInv.blockin_le_synth
    omega
  · intro s pkt' h0
    by_cases hb : s._blockin = true
    · rw [packetin_defer e s pkt' h0 hb]
      refine ⟨rfl, rfl, ?_⟩
      intro hbf
      rw [hbf] at hb
      cases hb
    · have hbf : s._blockin = false := by
        cases hbv : s._blockin with
        | false => rfl
        | true => exact absurd hbv hb
      by_cases hr : e.synthesis s.synthCalls pkt' = 0
      · by_cases hr2 : e.blockin s.blockinCalls = 0
        · rw [packetin_audioOk e s pkt' h0 hbf hr hr2]
          refine ⟨?_, ?_, fun _ => ?_⟩
          · rw [emitBlockin_headerCalls]
          · rw [emitBlockin_hdrOkCount]
          · rw [emitBlockin_synthCalls]
        · rw [packetin_blockinFail e s pkt' h0 hbf hr hr2]
          exact ⟨rfl, rfl, fun _ => rfl⟩
      · rw [packetin_synthFail e s pkt' h0 hbf hr]
        exact ⟨rfl, rfl, fun _ => rfl⟩

theorem header_negotiation_witness :
    initSt._headerCount = 3 ∧
    (initSt._headerCount + initSt.hdrOkCount = 3) ∧
    (a1.synthCalls = 0 ∧ a1.blockinCalls = 0 ∧ ∀ b, Ev.chunk b ∉ a1.trace) ∧
    ((packetin e0 a3 (pkt 4)).headerCalls = a3.headerCalls ∧
     (packetin e0 a3 (pkt 4)).hdrOkCount = a3.hdrOkCount ∧
     (a3._blockin = false →
       (packetin e0 a3 (pkt 4)).synthCalls = a3.synthCalls + 1)) :=
  ⟨(header_negotiation e0).1,
   (header_negotiation e0).2.1 initSt Reach.start,
   (header_negotiation e0).2.2.1 a1 reach_a1 (by decide),
   (header_negotiation e0).2.2.2 a3 (pkt 4) (by decide)⟩

/-- What a single _read invocation can append to the trace. -/
theorem read_trace_cases (e : Engine) (s : St) :
    (_read e s).trace = s.trace ∨
    (_read e s).trace = s.trace ++ [Ev.eof] ∨
    (_read e s).trace = s.trace ++ [Ev.readErr (e.pcmout s.pcmoutCalls)] ∨
    (_read e s).trace = s.trace ++ [Ev.chunk (e.pcmout s.pcmoutCalls)] := by
  by_cases hb : s._blockin = true
  · by_cases hz : e.pcmout s.pcmoutCalls = 0
    · cases hge : s._gotEos with
      | true =>
          right; left
          rw [read_zero_eos e s hb hz hge, emitPcmout_trace]
      | false =>
          left
          rw [read_zero_noEos e s hb hz hge, emitPcmout_trace]
    · by_cases hn : e.pcmout s.pcmoutCalls < 0
      · right; right; left
        rw [read_neg e s hb hn]
      · right; right; right
        have hpos : 0 < e.pcmout s.pcmoutCalls := by omega
        rw [read_pos e s hb hpos]
  · left
    have hbf : s._blockin = false := by
      cases hbv : s._blockin with
      | false => rfl
      | true => exact absurd hbv hb
    rw [read_noBlock e s hbf]

/-- What a single packetin invocation can append to the trace: nothing (the
defer branch), a single event that is neither comments nor format, or - on
the 1 to 0 transition of the header counter only - comments and format
followed by one further event. -/
theorem packetin_trace_cases (e : Engine) (s : St) (pkt' : Packet) :
    (packetin e s pkt').trace = s.trace ∨
    (∃ x, (packetin e s pkt').trace = s.trace ++ [x] ∧
      x ≠ Ev.comments ∧ x ≠ Ev.format) ∨
    (s._headerCount = 1 ∧ (packetin e s pkt')._headerCount = 0 ∧
      ∃ x, (packetin e s pkt').trace =
        s.trace ++ [Ev.comments, Ev.format, x]) := by
  by_cases h0 : 0 < s._headerCount
  · by_cases hr : e.headerin s.headerCalls pkt' = 0
    · by_cases h1 : s._headerCount = 1
      · right; right
        refine ⟨h1, ?_, ?_⟩
        · by_cases hi : e.synthesisInit = 0
          · by_cases hbi : e.blockInit = 0
            · rw [packetin_hdrLast_initOk e s pkt' h1 hr hi hbi]
            · rw [packetin_hdrLast_initFail2 e s pkt' h1 hr hi hbi]
          · rw [packetin_hdrLast_initFail1 e s pkt' h1 hr hi]
        · by_cases hi : e.synthesisInit = 0
          · by_cases hbi : e.blockInit = 0
            · rw [packetin_hdrLast_initOk e s pkt' h1 hr hi hbi]
              exact ⟨Ev.hdrOk, rfl⟩
            · rw [packetin_hdrLast_initFail2 e s pkt' h1 hr hi hbi]
              exact ⟨Ev.initErr e.blockInit, rfl⟩
          · rw [packetin_hdrLast_initFail1 e s pkt' h1 hr hi]
            exact ⟨Ev.initErr e.synthesisInit, rfl⟩
      · right; left
        have h2 : 2 ≤ s._headerCount := by omega
        rw [packetin_hdrOk_more e s pkt' h2 hr]
        exact ⟨Ev.hdrOk, rfl, by simp, by simp⟩
    · right; left
      rw [packetin_hdrFail e s pkt' h0 hr]
      exact ⟨Ev.hdrErr (e.headerin s.headerCalls pkt'), rfl, by simp, by simp⟩
  · have h00 : s._headerCount = 0 := by omega
    by_cases hb : s._blockin = true
    · left
      rw [packetin_defer e s pkt' h00 hb]
    · have hbf : s._blockin = false := by
        cases hbv : s._blockin with
        | false => rfl
        | true => exact absurd hbv hb
      by_cases hr : e.synthesis s.synthCalls pkt' = 0
      · by_cases hr2 : e.blockin s.blockinCalls = 0
        · left
          rw [packetin_audioOk e s pkt' h00 hbf hr hr2, emitBlockin_trace]
        · right; left
          rw [packetin_blockinFail e s pkt' h00 hbf hr hr2]
          exact ⟨Ev.errorEvent (e.blockin s.blockinCalls), rfl, by simp, by simp⟩
      · right; left
        rw [packetin_synthFail e s pkt' h00 hbf hr]
        exact ⟨Ev.errorEvent (e.synthesis s.synthCalls pkt'), rfl,
          by simp, by simp⟩

theorem comments_single_elim {l : List Ev} {x : Ev} (hx : x ≠ Ev.comments)
    (hn : Ev.comments ∉ l) (h : Ev.comments ∈ l ++ [x]) : False := by
  rcases List.mem_append.mp h with h1 | h1
  · exact hn h1
  · simp at h1
    exact hx h1.symm

/-- Claim C3: the comments and format events each fire exactly once, with
comments strictly before format, both only on the transition of the header
counter from 1 to 0, and both strictly before the first PCM chunk delivered
to the consumer.  The trace of any state with the headers done decomposes as
p ++ comments :: format :: q with no comments, format or chunk in p and no
comments or format in q; before that, neither event is in the trace; and any
step that first adds comments is exactly the 1 to 0 header transition. -/
theorem comments_format_once (e : Engine) :
    (∀ s, Reach e s → 0 < s._headerCount →
        Ev.comments ∉ s.trace ∧ Ev.format ∉ s.trace) ∧
    (∀ s, Reach e s → s._headerCount = 0 →
        ∃ p q, s.trace = p ++ Ev.comments :: Ev.format :: q ∧
          Ev.comments ∉ p ∧ Ev.format ∉ p ∧ (∀ b, Ev.chunk b ∉ p) ∧
          Ev.comments ∉ q ∧ Ev.format ∉ q) ∧
    (∀ s s', Reach e s → Step e s s' → Ev.comments ∉ s.trace →
        Ev.comments ∈ s'.trace →
        s._headerCount = 1 ∧ s'._headerCount = 0) := by
  refine ⟨?_, ?_, ?_⟩
  · intro s hre h0
    obtain ⟨_, _, hcom, hfmt, _⟩ := (reach_inv e hre).hdr_phase h0
    exact ⟨hcom, hfmt⟩
  · intro s hre h0
    exact (reach_inv e hre).post_hdr h0
  · intro s s' hre hstep hnot hin
    have hInv := reach_inv e hre
    cases hstep with
    | packetArrive pkt' hp hw he =>
        rw [arrive] at hin
        by_cases ha : s.attached = true
        · rw [if_pos ha] at hin
          rcases packetin_trace_cases e
            { s with eosArrived := s.eosArrived || pkt'.e_o_s } pkt' with
            h | ⟨x, hx, hxc, _⟩ | ⟨h1, h2, x, hx⟩
          · rw [h] at hin
            exact absurd hin hnot
          · rw [hx] at hin
            exact absurd (comments_single_elim hxc hnot hin) id
          · rw [arrive, if_pos ha]
            exact ⟨h1, h2⟩
        · rw [if_neg ha] at hin
          exact absurd hin hnot
    | readDemand hp hw =>
        rcases read_trace_cases e s with h | h | h | h
        · rw [h] at hin
          exact absurd hin hnot
        · rw [h] at hin
          exact absurd (comments_single_elim (by simp) hnot hin) id
        · rw [h] at hin
          exact absurd (comments_single_elim (by simp) hnot hin) id
        · rw [h] at hin
          exact absurd (comments_single_elim (by simp) hnot hin) id
    | internal t ts hpend =>
        cases t with
        | readTask =>
            show s._headerCount = 1 ∧ (_read e _)._headerCount = 0
            rcases read_trace_cases e { s with pending := ts } with h | h | h | h
              <;> rw [show (runTask e { s with pending := ts }
                DecTask.readTask).trace =
                  (_read e { s with pending := ts }).trace from rfl, h] at hin
              <;> first
                | exact absurd hin hnot
                | exact absurd (comments_single_elim (by simp) hnot hin) id
        | packetTask pkt' =>
            rcases packetin_trace_cases e { s with pending := ts } pkt' with
              h | ⟨x, hx, hxc, _⟩ | ⟨h1, h2, x, hx⟩
            · rw [show (runTask e { s with pending := ts }
                  (DecTask.packetTask pkt')).trace =
                    (packetin e { s with pending := ts } pkt').trace from rfl,
                h] at hin
              exact absurd hin hnot
            · rw [show (runTask e { s with pending := ts }
                  (DecTask.packetTask pkt')).trace =
                    (packetin e { s with pending := ts } pkt').trace from rfl,
                hx] at hin
              exact absurd (comments_single_elim hxc hnot hin) id
            · exact ⟨h1, h2⟩

theorem comments_format_once_witness :
    (Ev.comments ∉ initSt.trace ∧ Ev.format ∉ initSt.trace) ∧
    (∃ p q, a3.trace = p ++ Ev.comments :: Ev.format :: q ∧
      Ev.comments ∉ p ∧ Ev.format ∉ p ∧ (∀ b, Ev.chunk b ∉ p) ∧
      Ev.comments ∉ q ∧ Ev.format ∉ q) ∧
    (a2._headerCount = 1 ∧ a3._headerCount = 0) :=
  ⟨(comments_format_once e0).1 initSt Reach.start (by decide),
   (comments_format_once e0).2.1 a3 reach_a3 (by decide),
   (comments_format_once e0).2.2 a2 a3 reach_a2
     (Step.packetArrive a2 (pkt 3) (by decide) (by decide) (by decide))
     (by decide) (by decide)⟩

/-- Claim C4: the terminal end-of-file result is delivered to the consumer
exactly when a pcm-extract call returns zero while _gotEos is true (a read
with a block in delivers it iff the extraction returns zero and the marker was
seen; a read with no block in just registers and delivers nothing); a terminal
read is never delivered before the last non-empty PCM chunk (once delivered,
the whole trace ends at the single eof event, so no chunk follows it); and
when _gotEos is false a zero-sample extraction makes the read wait for the
next block instead, delivering nothing. -/
theorem eos_drain (e : Engine) :
    (∀ s, Reach e s → s._blockin = true →
        ((_read e s).eofDelivered = true ↔
          (e.pcmout s.pcmoutCalls = 0 ∧ s._gotEos = true))) ∧
    (∀ s, s._blockin = false → _read e s = { s with blockinWaiter := true }) ∧
    (∀ s, Reach e s → s.eofDelivered = true →
        ∃ p, s.trace = p ++ [Ev.eof] ∧ Ev.eof ∉ p) ∧
    (∀ s, Reach e s → s._blockin = true → e.pcmout s.pcmoutCalls = 0 →
        s._gotEos = false →
        (_read e s).blockinWaiter = true ∧ (_read e s).trace = s.trace ∧
        (_read e s).eofDelivered = false) := by
  refine ⟨?_, ?_, ?_, ?_⟩
  · intro s hre hb
    have heof : s.eofDelivered = false :=
      inv_blockin_not_eof s (reach_inv e hre) hb
    constructor
    · intro h
      by_cases hz : e.pcmout s.pcmoutCalls = 0
      · cases hge : s._gotEos with
        | true => exact ⟨hz, rfl⟩
        | false =>
            rw [read_zero_noEos e s hb hz hge, emitPcmout_eofDelivered] at h
            rw [show s.eofDelivered = true from h] at heof
            cases heof
      · by_cases hn : e.pcmout s.pcmoutCalls < 0
        · rw [read_neg e s hb hn] at h
          rw [show s.eofDelivered = true from h] at heof
          cases heof
        · have hpos : 0 < e.pcmout s.pcmoutCalls := by omega
          rw [read_pos e s hb hpos] at h
          rw [show s.eofDelivered = true from h] at heof
          cases heof
    · rintro ⟨hz, hge⟩
      rw [read_zero_eos e s hb hz hge, emitPcmout_eofDelivered]
  · intro s hbf
    exact read_noBlock e s hbf
  · intro s hre heofd
    exact (reach_inv e hre).eof_last heofd
  · intro s hre hb hz hge
    have heof : s.eofDelivered = false :=
      inv_blockin_not_eof s (reach_inv e hre) hb
    rw [read_zero_noEos e s hb hz hge]
    refine ⟨?_, ?_, ?_⟩
    · rw [emitPcmout_blockinWaiter]
    · rw [emitPcmout_trace]
    · rw [emitPcmout_eofDelivered]
      exact heof

theorem eos_drain_witness :
    ((_read eD b4).eofDelivered = true ↔
      (eD.pcmout b4.pcmoutCalls = 0 ∧ b4._gotEos = true)) ∧
    _read eD b5 = { b5 with blockinWaiter := true } ∧
    (∃ p, b5.trace = p ++ [Ev.eof] ∧ Ev.eof ∉ p) ∧
    ((_read eD d4).blockinWaiter = true ∧ (_read eD d4).trace = d4.trace ∧
      (_read eD d4).eofDelivered = false) :=
  ⟨(eos_drain eD).1 b4 reach_b4 (by decide),
   (eos_drain eD).2.1 b5 (by decide),
   (eos_drain eD).2.2.1 b5 reach_b5 (by decide),
   (eos_drain eD).2.2.2 d4 reach_d4 (by decide) (by decide) (by decide)⟩

/-- Claim C5: when the engine's block-synthesis (vorbis_synthesis) or
block-accumulation (vorbis_synthesis_blockin) step fails on an audio packet,
the decoder detaches the packet listener from the Packet Source (so no
further packets are accepted), raises the error event, the error event occurs
exactly once in the whole execution, and afterwards no further transitions of
the decode session state occur: every subsequent step leaves the header
counter, the block flag, the end-of-stream flag, the trace and all engine
call counters unchanged. -/
theorem decode_error_teardown (e : Engine) :
    (∀ s pkt', s._headerCount = 0 → s._blockin = false →
        e.synthesis s.synthCalls pkt' ≠ 0 →
        (packetin e s pkt').attached = false ∧
        (packetin e s pkt').erred = true ∧
        (packetin e s pkt').trace =
          s.trace ++ [Ev.errorEvent (e.synthesis s.synthCalls pkt')]) ∧
    (∀ s pkt', s._headerCount = 0 → s._blockin = false →
        e.synthesis s.synthCalls pkt' = 0 → e.blockin s.blockinCalls ≠ 0 →
        (packetin e s pkt').attached = false ∧
        (packetin e s pkt').erred = true ∧
        (packetin e s pkt').trace =
          s.trace ++ [Ev.errorEvent (e.blockin s.blockinCalls)]) ∧
    (∀ s, Reach e s → s.erred = true →
        countErr s.trace = 1 ∧ s.attached = false) ∧
    (∀ s s', Reach e s → s.erred = true → Step e s s' →
        s'._headerCount = s._headerCount ∧ s'._blockin = s._blockin ∧
        s'._gotEos = s._gotEos ∧ s'.trace = s.trace ∧ s'.erred = true ∧
        s'.attached = false ∧ s'.synthCalls = s.synthCalls ∧
        s'.blockinCalls = s.blockinCalls ∧
        s'.pcmoutCalls = s.pcmoutCalls) := by
  refine ⟨?_, ?_, ?_, ?_⟩
  · intro s pkt' h0 hb hr
    rw [packetin_synthFail e s pkt' h0 hb hr]
    exact ⟨rfl, rfl, rfl⟩
  · intro s pkt' h0 hb hr hr2
    rw [packetin_blockinFail e s pkt' h0 hb hr hr2]
    exact ⟨rfl, rfl, rfl⟩
  · intro s hre herr
    have hInv := reach_inv e hre
    have h := hInv.err_count
    rw [herr] at h
    simp at h
    exact ⟨h, (hInv.erred_down herr).1⟩
  · intro s s' hre herr hstep
    have hInv := reach_inv e hre
    obtain ⟨hatt, hbk, hwn, hpe, hh0⟩ := hInv.erred_down herr
    cases hstep with
    | packetArrive pkt' hp hw he =>
        rw [arrive, if_neg (by rw [hatt]; simp)]
        exact ⟨rfl, rfl, rfl, rfl, herr, hatt, rfl, rfl, rfl⟩
    | readDemand hp hw =>
        rw [read_noBlock e s hbk]
        exact ⟨rfl, rfl, rfl, rfl, herr, hatt, rfl, rfl, rfl⟩
    | internal t ts hpend =>
        rw [hpe] at hpend
        cases hpend

theorem decode_error_teardown_witness :
    ((packetin eS stH0 (pkt 4)).attached = false ∧
     (packetin eS stH0 (pkt 4)).erred = true ∧
     (packetin eS stH0 (pkt 4)).trace = stH0.trace ++ [Ev.errorEvent 3]) ∧
    ((packetin eB stH0 (pkt 4)).attached = false ∧
     (packetin eB stH0 (pkt 4)).erred = true ∧
     (packetin eB stH0 (pkt 4)).trace = stH0.trace ++ [Ev.errorEvent 4]) ∧
    (countErr f4.trace = 1 ∧ f4.attached = false) ∧
    ((_read eS f4)._headerCount = f4._headerCount ∧
     (_read eS f4)._blockin = f4._blockin ∧
     (_read eS f4)._gotEos = f4._gotEos ∧
     (_read eS f4).trace = f4.trace ∧ (_read eS f4).erred = true ∧
     (_read eS f4).attached = false ∧
     (_read eS f4).synthCalls = f4.synthCalls ∧
     (_read eS f4).blockinCalls = f4.blockinCalls ∧
     (_read eS f4).pcmoutCalls = f4.pcmoutCalls) :=
  ⟨(decode_error_teardown eS).1 stH0 (pkt 4) (by decide) (by decide)
     (by decide),
   (decode_error_teardown eB).2.1 stH0 (pkt 4) (by decide) (by decide)
     (by decide) (by decide),
   (decode_error_teardown eS).2.2.1 f4 reach_f4 (by decide),
   (decode_error_teardown eS).2.2.2 f4 (_read eS f4) reach_f4 (by decide)
     (Step.readDemand f4 (by decide) (by decide))⟩

/-- Claim C7, counterexample: in a concrete execution where the first
pcm-extract call returns the negative status -3, the read failure is
delivered (readErr -3 is in the trace), but the decoder stays attached to the
Packet Source, and a further packet is later processed all the way into the
engine (the synthesis call counter reaches 2), refuting the claim that no
further packets are accepted after an extract error. -/
theorem extract_error_no_detach_cx :
    Reach eC c7 ∧ Ev.readErr (-3) ∈ c5.trace ∧ c5.attached = true ∧
    c5.erred = false ∧ Ev.readErr (-3) ∈ c7.trace ∧ c7.attached = true ∧
    c7.synthCalls = 2 ∧ c7._blockin = true :=
  ⟨reach_c7, by decide, by decide, by decide, by decide, by decide,
   by decide, by decide⟩

/-- Claim C7, amended: whenever a pcm-extract call returns a negative status,
the error is surfaced to the consumer as a read failure (readErr with the
engine status), but the decoder does not detach from the Packet Source:
_error is not run, the packet listener stays attached, and the decoder state
is unchanged apart from the call counter and the delivered error, so further
packets are still accepted and processed. -/
theorem extract_error_read_failure (e : Engine) (s : St)
    (hb : s._blockin = true) (hn : e.pcmout s.pcmoutCalls < 0) :
    _read e s =
      { s with pcmoutCalls := s.pcmoutCalls + 1,
               trace := s.trace ++ [Ev.readErr (e.pcmout s.pcmoutCalls)] } ∧
    (_read e s).attached = s.attached ∧ (_read e s).erred = s.erred := by
  have h := read_neg e s hb hn
  refine ⟨h, ?_, ?_⟩ <;> rw [h]

theorem extract_error_read_failure_witness :
    _read eC c4 =
      { c4 with pcmoutCalls := c4.pcmoutCalls + 1,
                trace := c4.trace ++ [Ev.readErr (eC.pcmout c4.pcmoutCalls)] } ∧
    (_read eC c4).attached = c4.attached ∧ (_read eC c4).erred = c4.erred :=
  extract_error_read_failure eC c4 (by decide) (by decide)

/-- Claim C8, counterexample: in a concrete execution the terminal end-of-file
result is delivered (state b5), and a subsequent read is a legal step of the
machine, but it does not return the terminal result again - it delivers
nothing (the trace is unchanged, eof occurs exactly once) and merely registers
the once('blockin') waiter - refuting the claim that every subsequent read
returns the terminal end-of-stream result. -/
theorem eof_not_repeated_cx :
    Reach eD b5 ∧ b5.eofDelivered = true ∧ Ev.eof ∈ b5.trace ∧
    Step eD b5 (_read eD b5) ∧ (_read eD b5).trace = b5.trace ∧
    countErr b5.trace = 0 ∧ (_read eD b5).blockinWaiter = true :=
  ⟨reach_b5, by decide, by decide,
   Step.readDemand b5 (by decide) (by decide), by decide, by decide,
   by decide⟩

/-- Claim C8, amended: once the terminal end-of-file result has been returned
to the consumer, no subsequent step of the decoder delivers anything - in
particular no new PCM data and no error: the whole trace is frozen (the
subsequent read suspends on the blockin waiter rather than returning the
terminal result again, and the Packet Source, having stopped after the
end-of-stream packet, supplies nothing that could wake it). -/
theorem eof_terminal_quiescent (e : Engine) (s s' : St) (hre : Reach e s)
    (heofd : s.eofDelivered = true) (hstep : Step e s s') :
    s'.trace = s.trace ∧ s'.eofDelivered = true := by
  have hInv := reach_inv e hre
  obtain ⟨hge, hbk, hwn, hpe⟩ := hInv.eof_down heofd
  cases hstep with
  | packetArrive pkt' hp hw he =>
      have hea := hInv.eos_arrived hge
      rw [hea] at he
      cases he
  | readDemand hp hw =>
      rw [read_noBlock e s hbk]
      exact ⟨rfl, heofd⟩
  | internal t ts hpend =>
      rw [hpe] at hpend
      cases hpend

theorem eof_terminal_quiescent_witness :
    (_read eD b5).trace = b5.trace ∧ (_read eD b5).eofDelivered = true :=
  eof_terminal_quiescent eD b5 (_read eD b5) reach_b5 (by decide)
    (Step.readDemand b5 (by decide) (by decide))

end NodeVorbis
